import Mathlib

/-!
Verification development for the fastpmr pairwise-mismatch-rate tool.

The definitions below are a shallow embedding of the Rust source:
  * `src/model.rs`   — `Allele`, `Allele::mismatch`, `Site`
  * `src/counts.rs`  — `Counts`, sequential and parallel accumulation
  * `src/cli.rs`     — index parsing, sample-pair resolution, coverage filtering
  * `src/reader/*`   — the format decoders' construction checks and site streams

Machine integers (`u64`, `usize`) are modelled as `Nat`: none of the verified
code paths can overflow 64 bits for inputs a real run can see, and every count
only ever grows by bounded increments, so the embedding uses exact naturals.
Vectors indexed by cell are modelled as total functions `Nat → Nat` (reads of
cells the program never touches return the initial value 0, exactly as the
zero-initialised Rust vectors do). File I/O is factored out: each reader is
embedded as a function of the already-read file contents.
-/

/-- Genotype call, `src/model.rs` lines 1-8.  The Rust `#[repr(u8)]` values
are `Ref = 0`, `Het = 1`, `Alt = 2`, `Missing = 3`. -/
inductive Allele
  | Ref
  | Het
  | Alt
  | Missing
deriving DecidableEq, Repr, Fintype

/-- Integer code of an `Allele`, the `#[repr(u8)]` discriminant used by the
`MISMATCH` table lookup (`self as usize`). -/
def Allele.code : Allele → Nat
  | .Ref => 0
  | .Het => 1
  | .Alt => 2
  | .Missing => 3

/-- Mismatch table of `Allele::mismatch`, `src/model.rs` lines 11-19.
Row = `self`, column = `other`, in discriminant order Ref, Het, Alt, Missing. -/
def mismatchTable : List (List Nat) :=
  [[0, 1, 2, 0],
   [1, 1, 1, 0],
   [2, 1, 0, 0],
   [0, 0, 0, 0]]

/-- The `Allele::mismatch` lookup, `src/model.rs` lines 11-19:
`MISMATCH[self as usize][other as usize]`. -/
def Allele.mismatch (a b : Allele) : Nat :=
  ((mismatchTable.getD a.code []).getD b.code 0)

/-- One variant's calls across samples, `src/model.rs` lines 22-24. -/
structure Site where
  genotypes : List Allele
deriving DecidableEq, Repr

/-- The claim's arithmetic reading of mismatch, written from the spec's words
"Mismatch between two non-missing alleles = |code(a) − code(b)|" for
comparison with the source's table. -/
def specMismatch (a b : Allele) : Nat :=
  ((a.code : Int) - (b.code : Int)).natAbs

/-- C1: the source's mismatch table agrees with `|code(a) - code(b)|` on every
non-missing pair except `(Het, Het)`, where the table holds 1 rather than 0. -/
theorem mismatch_eq_specMismatch_except_het_het :
    ∀ a b : Allele, a ≠ Allele.Missing → b ≠ Allele.Missing →
      (Allele.mismatch a b =
        if a = Allele.Het ∧ b = Allele.Het then 1 else specMismatch a b) ∧
      Allele.mismatch a b ≤ 2 ∧
      Allele.mismatch a b = Allele.mismatch b a ∧
      Allele.mismatch a a = (if a = Allele.Het then 1 else 0) := by
  decide

/-- Witness for `mismatch_eq_specMismatch_except_het_het` at `(Ref, Alt)`. -/
theorem mismatch_eq_specMismatch_except_het_het_witness :
    (Allele.Ref ≠ Allele.Missing) ∧
    (Allele.mismatch Allele.Ref Allele.Alt =
       if Allele.Ref = Allele.Het ∧ Allele.Alt = Allele.Het then 1
       else specMismatch Allele.Ref Allele.Alt) :=
  ⟨by decide,
   (mismatch_eq_specMismatch_except_het_het Allele.Ref Allele.Alt
      (by decide) (by decide)).1⟩

/-- Counterexample to C1 as stated: at the concrete input `(Het, Het)` the
code returns 1 while `|code(Het) - code(Het)| = 0`, so mismatch is not
reflexive at `Het`. -/
theorem mismatch_het_het_ne_specMismatch :
    Allele.mismatch Allele.Het Allele.Het = 1 ∧
    specMismatch Allele.Het Allele.Het = 0 ∧
    ¬ Allele.mismatch Allele.Het Allele.Het =
        specMismatch Allele.Het Allele.Het := by
  decide

/-- Pair-counter state of `src/counts.rs` lines 10-18.  The flat row-major
`Vec<u64>` arrays are modelled as total functions from flat index to count
(unwritten cells read 0, as in the zero-initialised vectors); the optional
`Vec<bool>` mask is likewise a function. -/
structure Counts where
  samples : List String
  n_samples : Nat
  mismatches : Nat → Nat
  totals : Nat → Nat
  indices_to_count : Option (Nat → Bool)

/-- Cell address of `Counts::idx_from_parts`, `src/counts.rs` lines 49-55. -/
def idx_from_parts (n_samples i j : Nat) : Nat :=
  if i < j then n_samples * i + j else n_samples * j + i

/-- Method `Counts::idx`, `src/counts.rs` lines 45-47. -/
def Counts.idx (c : Counts) (i j : Nat) : Nat :=
  idx_from_parts c.n_samples i j

/-- Constructor `Counts::new`, `src/counts.rs` lines 21-43: the optional pair
set is turned into a boolean mask that is true exactly at `idx(left, right)`
for each listed pair with `left != right`. -/
def Counts.new (samples : List String) (pairs : Option (List (Nat × Nat))) :
    Counts :=
  let n_samples := samples.length
  { samples := samples
    n_samples := n_samples
    mismatches := fun _ => 0
    totals := fun _ => 0
    indices_to_count := pairs.map (fun ps k =>
      ps.any (fun p =>
        decide (p.1 ≠ p.2) && decide (idx_from_parts n_samples p.1 p.2 = k))) }

/-- Shared mask test `indices_to_count.map_or(true, |mask| mask[idx])` used at
`src/counts.rs` lines 85-89 and 129-133. -/
def maskAdmits (mask : Option (Nat → Bool)) (k : Nat) : Bool :=
  match mask with
  | none => true
  | some m => m k

/-- Present-call list built at `src/counts.rs` lines 74-80: enumerated
genotypes with the `Missing` entries filtered out. -/
def presentOf (genotypes : List Allele) : List (Nat × Allele) :=
  genotypes.enum.filter (fun p => decide (p.2 ≠ Allele.Missing))

/-- Ordered pairs visited by the nested loops of `src/counts.rs` lines 82-83:
each element paired with every later element. -/
def pairsOf {α : Type} : List α → List (α × α)
  | [] => []
  | x :: xs => (xs.map (fun y => (x, y))) ++ pairsOf xs

/-- Update of one flat cell, modelling `self.mismatches[idx] += v`. -/
def bumpAt (f : Nat → Nat) (k v : Nat) : Nat → Nat :=
  fun m => if m = k then f m + v else f m

/-- Body of the inner pair loop, `src/counts.rs` lines 84-93: compute the cell
index, and when the mask admits it add the mismatch value and 2 to the cell. -/
def applyPair (c : Counts) (pi pj : Nat × Allele) : Counts :=
  let k := c.idx pi.1 pj.1
  if maskAdmits c.indices_to_count k then
    { c with
      mismatches := bumpAt c.mismatches k (pi.2.mismatch pj.2)
      totals := bumpAt c.totals k 2 }
  else c

/-- Per-site accumulation step, the loop body of `Counts::consume_reader`,
`src/counts.rs` lines 72-95. -/
def consumeSite (c : Counts) (site : Site) : Counts :=
  (pairsOf (presentOf site.genotypes)).foldl
    (fun acc p => applyPair acc p.1 p.2) c

/-- Sequential accumulation `Counts::consume_reader`, `src/counts.rs`
lines 66-99, for an error-free stream of sites. -/
def consume_reader (c : Counts) (sites : List Site) : Counts :=
  sites.foldl consumeSite c

/-- Parallel accumulation `Counts::consume_reader_parallel`, `src/counts.rs`
lines 101-156: fresh all-zero atomic arrays accumulate every site's
contribution by commutative addition, and the results replace the arrays of
`self`.  The argument `exec` is the order in which the workers' contributions
land; any interleaving the scheduler can produce is a permutation of the
input stream, which is how the theorems quantify over schedules. -/
def consume_reader_parallel (c : Counts) (exec : List Site) : Counts :=
  let r := consume_reader
    { c with mismatches := fun _ => 0, totals := fun _ => 0 } exec
  { c with mismatches := r.mismatches, totals := r.totals }

/-- Contribution of one ordered pair of present calls to one cell: the value
`applyPair` adds to `mismatches` there. -/
def pairContribM (n : Nat) (mask : Option (Nat → Bool)) (pi pj : Nat × Allele)
    (k : Nat) : Nat :=
  if maskAdmits mask (idx_from_parts n pi.1 pj.1) ∧
      k = idx_from_parts n pi.1 pj.1 then
    pi.2.mismatch pj.2
  else 0

/-- Contribution of one ordered pair of present calls to one cell of the
`totals` array. -/
def pairContribT (n : Nat) (mask : Option (Nat → Bool)) (pi pj : Nat × Allele)
    (k : Nat) : Nat :=
  if maskAdmits mask (idx_from_parts n pi.1 pj.1) ∧
      k = idx_from_parts n pi.1 pj.1 then
    2
  else 0

/-- Total contribution of one site to one `mismatches` cell. -/
def siteContribM (n : Nat) (mask : Option (Nat → Bool)) (site : Site)
    (k : Nat) : Nat :=
  ((pairsOf (presentOf site.genotypes)).map
    (fun p => pairContribM n mask p.1 p.2 k)).sum

/-- Total contribution of one site to one `totals` cell. -/
def siteContribT (n : Nat) (mask : Option (Nat → Bool)) (site : Site)
    (k : Nat) : Nat :=
  ((pairsOf (presentOf site.genotypes)).map
    (fun p => pairContribT n mask p.1 p.2 k)).sum

theorem applyPair_n_samples (c : Counts) (pi pj : Nat × Allele) :
    (applyPair c pi pj).n_samples = c.n_samples := by
  by_cases h : maskAdmits c.indices_to_count (c.idx pi.1 pj.1) <;>
    simp [applyPair, h]

theorem applyPair_mask (c : Counts) (pi pj : Nat × Allele) :
    (applyPair c pi pj).indices_to_count = c.indices_to_count := by
  by_cases h : maskAdmits c.indices_to_count (c.idx pi.1 pj.1) <;>
    simp [applyPair, h]

theorem applyPair_mismatches (c : Counts) (pi pj : Nat × Allele) (k : Nat) :
    (applyPair c pi pj).mismatches k =
      c.mismatches k + pairContribM c.n_samples c.indices_to_count pi pj k := by
  unfold applyPair pairContribM Counts.idx bumpAt
  by_cases hm : maskAdmits c.indices_to_count (idx_from_parts c.n_samples pi.1 pj.1)
  · simp only [hm, if_true]
    by_cases hk : k = idx_from_parts c.n_samples pi.1 pj.1
    · simp [hk]
    · simp [hk]
  · simp [hm]

theorem applyPair_totals (c : Counts) (pi pj : Nat × Allele) (k : Nat) :
    (applyPair c pi pj).totals k =
      c.totals k + pairContribT c.n_samples c.indices_to_count pi pj k := by
  unfold applyPair pairContribT Counts.idx bumpAt
  by_cases hm : maskAdmits c.indices_to_count (idx_from_parts c.n_samples pi.1 pj.1)
  · simp only [hm, if_true]
    by_cases hk : k = idx_from_parts c.n_samples pi.1 pj.1
    · simp [hk]
    · simp [hk]
  · simp [hm]

theorem foldl_applyPair_n_samples (c : Counts) (ps : List ((Nat × Allele) × (Nat × Allele))) :
    (ps.foldl (fun acc p => applyPair acc p.1 p.2) c).n_samples = c.n_samples := by
  induction ps generalizing c with
  | nil => rfl
  | cons p rest ih => rw [List.foldl_cons, ih, applyPair_n_samples]

theorem foldl_applyPair_mask (c : Counts) (ps : List ((Nat × Allele) × (Nat × Allele))) :
    (ps.foldl (fun acc p => applyPair acc p.1 p.2) c).indices_to_count =
      c.indices_to_count := by
  induction ps generalizing c with
  | nil => rfl
  | cons p rest ih => rw [List.foldl_cons, ih, applyPair_mask]

theorem foldl_applyPair_mismatches (c : Counts)
    (ps : List ((Nat × Allele) × (Nat × Allele))) (k : Nat) :
    (ps.foldl (fun acc p => applyPair acc p.1 p.2) c).mismatches k =
      c.mismatches k +
        (ps.map (fun p =>
          pairContribM c.n_samples c.indices_to_count p.1 p.2 k)).sum := by
  induction ps generalizing c with
  | nil => simp
  | cons p rest ih =>
    rw [List.foldl_cons, ih, applyPair_mismatches, applyPair_n_samples,
      applyPair_mask, List.map_cons, List.sum_cons]
    omega

theorem foldl_applyPair_totals (c : Counts)
    (ps : List ((Nat × Allele) × (Nat × Allele))) (k : Nat) :
    (ps.foldl (fun acc p => applyPair acc p.1 p.2) c).totals k =
      c.totals k +
        (ps.map (fun p =>
          pairContribT c.n_samples c.indices_to_count p.1 p.2 k)).sum := by
  induction ps generalizing c with
  | nil => simp
  | cons p rest ih =>
    rw [List.foldl_cons, ih, applyPair_totals, applyPair_n_samples,
      applyPair_mask, List.map_cons, List.sum_cons]
    omega

theorem consumeSite_n_samples (c : Counts) (site : Site) :
    (consumeSite c site).n_samples = c.n_samples :=
  foldl_applyPair_n_samples c _

theorem consumeSite_mask (c : Counts) (site : Site) :
    (consumeSite c site).indices_to_count = c.indices_to_count :=
  foldl_applyPair_mask c _

theorem consumeSite_mismatches (c : Counts) (site : Site) (k : Nat) :
    (consumeSite c site).mismatches k =
      c.mismatches k + siteContribM c.n_samples c.indices_to_count site k :=
  foldl_applyPair_mismatches c _ k

theorem consumeSite_totals (c : Counts) (site : Site) (k : Nat) :
    (consumeSite c site).totals k =
      c.totals k + siteContribT c.n_samples c.indices_to_count site k :=
  foldl_applyPair_totals c _ k

/-- Total contribution of a list of sites to one `mismatches` cell. -/
def streamContribM (n : Nat) (mask : Option (Nat → Bool)) (sites : List Site)
    (k : Nat) : Nat :=
  (sites.map (fun s => siteContribM n mask s k)).sum

/-- Total contribution of a list of sites to one `totals` cell. -/
def streamContribT (n : Nat) (mask : Option (Nat → Bool)) (sites : List Site)
    (k : Nat) : Nat :=
  (sites.map (fun s => siteContribT n mask s k)).sum

theorem consume_reader_n_samples (c : Counts) (sites : List Site) :
    (consume_reader c sites).n_samples = c.n_samples := by
  induction sites generalizing c with
  | nil => rfl
  | cons s rest ih =>
    show (consume_reader (consumeSite c s) rest).n_samples = _
    rw [ih, consumeSite_n_samples]

theorem consume_reader_mask (c : Counts) (sites : List Site) :
    (consume_reader c sites).indices_to_count = c.indices_to_count := by
  induction sites generalizing c with
  | nil => rfl
  | cons s rest ih =>
    show (consume_reader (consumeSite c s) rest).indices_to_count = _
    rw [ih, consumeSite_mask]

theorem consume_reader_mismatches (c : Counts) (sites : List Site) (k : Nat) :
    (consume_reader c sites).mismatches k =
      c.mismatches k +
        streamContribM c.n_samples c.indices_to_count sites k := by
  induction sites generalizing c with
  | nil => simp [consume_reader, streamContribM]
  | cons s rest ih =>
    show (consume_reader (consumeSite c s) rest).mismatches k = _
    rw [ih, consumeSite_mismatches, consumeSite_n_samples, consumeSite_mask]
    simp only [streamContribM, List.map_cons, List.sum_cons]
    omega

theorem consume_reader_totals (c : Counts) (sites : List Site) (k : Nat) :
    (consume_reader c sites).totals k =
      c.totals k +
        streamContribT c.n_samples c.indices_to_count sites k := by
  induction sites generalizing c with
  | nil => simp [consume_reader, streamContribT]
  | cons s rest ih =>
    show (consume_reader (consumeSite c s) rest).totals k = _
    rw [ih, consumeSite_totals, consumeSite_n_samples, consumeSite_mask]
    simp only [streamContribT, List.map_cons, List.sum_cons]
    omega

theorem streamContribM_perm (n : Nat) (mask : Option (Nat → Bool))
    {l₁ l₂ : List Site} (h : l₁.Perm l₂) (k : Nat) :
    streamContribM n mask l₁ k = streamContribM n mask l₂ k :=
  (h.map (fun s => siteContribM n mask s k)).sum_eq

theorem streamContribT_perm (n : Nat) (mask : Option (Nat → Bool))
    {l₁ l₂ : List Site} (h : l₁.Perm l₂) (k : Nat) :
    streamContribT n mask l₁ k = streamContribT n mask l₂ k :=
  (h.map (fun s => siteContribT n mask s k)).sum_eq

/-- C3: for a freshly constructed `Counts` (the only initial state the program
can build, whose arrays are all zero), sequential accumulation over a site
stream and parallel accumulation under any schedule of any worker count —
any partition of the stream across workers, interleaved in any order the
scheduler produces, hence any permutation `exec` of the stream — yield
identical `mismatches` and `totals` arrays. -/
theorem consume_reader_parallel_eq_sequential (samples : List String)
    (pairs : Option (List (Nat × Nat))) (sites : List Site)
    (workers : Nat) (schedule : List (List Site)) (exec : List Site)
    (_hw : schedule.length = workers)
    (hsched : schedule.flatten.Perm sites)
    (hexec : exec.Perm schedule.flatten) :
    ∀ k,
      (consume_reader_parallel (Counts.new samples pairs) exec).mismatches k =
        (consume_reader (Counts.new samples pairs) sites).mismatches k ∧
      (consume_reader_parallel (Counts.new samples pairs) exec).totals k =
        (consume_reader (Counts.new samples pairs) sites).totals k := by
  intro k
  have hperm : exec.Perm sites := hexec.trans hsched
  constructor
  · show (consume_reader _ exec).mismatches k = _
    rw [consume_reader_mismatches, consume_reader_mismatches,
      streamContribM_perm _ _ hperm k]
    simp [Counts.new]
  · show (consume_reader _ exec).totals k = _
    rw [consume_reader_totals, consume_reader_totals,
      streamContribT_perm _ _ hperm k]
    simp [Counts.new]

/-- Witness for `consume_reader_parallel_eq_sequential`: two sites split
across two workers in swapped order. -/
theorem consume_reader_parallel_eq_sequential_witness :
    ([[Site.mk [Allele.Het, Allele.Alt]], [Site.mk [Allele.Ref, Allele.Ref]]] :
        List (List Site)).length = 2 ∧
    (consume_reader_parallel
        (Counts.new ["a", "b"] none)
        [Site.mk [Allele.Ref, Allele.Ref], Site.mk [Allele.Het, Allele.Alt]]).mismatches 1 =
      (consume_reader (Counts.new ["a", "b"] none)
        [Site.mk [Allele.Het, Allele.Alt], Site.mk [Allele.Ref, Allele.Ref]]).mismatches 1 :=
  ⟨rfl,
   (consume_reader_parallel_eq_sequential ["a", "b"] none
      [Site.mk [Allele.Het, Allele.Alt], Site.mk [Allele.Ref, Allele.Ref]] 2
      [[Site.mk [Allele.Het, Allele.Alt]], [Site.mk [Allele.Ref, Allele.Ref]]]
      [Site.mk [Allele.Ref, Allele.Ref], Site.mk [Allele.Het, Allele.Alt]]
      rfl (by simp) (List.Perm.swap _ _ _) 1).1⟩

/-- Accessor `Counts::site_overlaps`, `src/counts.rs` lines 166-168:
overlap is `totals / 2` per cell. -/
def Counts.site_overlaps (c : Counts) (k : Nat) : Nat :=
  c.totals k / 2

theorem streamContribM_append (n : Nat) (mask : Option (Nat → Bool))
    (l₁ l₂ : List Site) (k : Nat) :
    streamContribM n mask (l₁ ++ l₂) k =
      streamContribM n mask l₁ k + streamContribM n mask l₂ k := by
  simp [streamContribM]

theorem streamContribT_append (n : Nat) (mask : Option (Nat → Bool))
    (l₁ l₂ : List Site) (k : Nat) :
    streamContribT n mask (l₁ ++ l₂) k =
      streamContribT n mask l₁ k + streamContribT n mask l₂ k := by
  simp [streamContribT]

theorem streamContribM_replicate (n : Nat) (mask : Option (Nat → Bool))
    (m : Nat) (s : Site) (k : Nat) :
    streamContribM n mask (List.replicate m s) k =
      m * siteContribM n mask s k := by
  simp [streamContribM, List.map_replicate, List.sum_replicate]

theorem streamContribT_replicate (n : Nat) (mask : Option (Nat → Bool))
    (m : Nat) (s : Site) (k : Nat) :
    streamContribT n mask (List.replicate m s) k =
      m * siteContribT n mask s k := by
  simp [streamContribT, List.map_replicate, List.sum_replicate]

/-- Scenario site `[Ref, Alt, Alt, Alt]` (sample 0 differs). -/
def siteRAAA : Site := ⟨[Allele.Ref, Allele.Alt, Allele.Alt, Allele.Alt]⟩

/-- Scenario site with every sample heterozygous. -/
def siteHHHH : Site := ⟨[Allele.Het, Allele.Het, Allele.Het, Allele.Het]⟩

/-- Scenario site with every sample alternate (identical calls). -/
def siteAAAA : Site := ⟨[Allele.Alt, Allele.Alt, Allele.Alt, Allele.Alt]⟩

/-- Scenario site where sample 0 is missing and the rest alternate. -/
def siteMAAA : Site := ⟨[Allele.Missing, Allele.Alt, Allele.Alt, Allele.Alt]⟩

/-- End-to-end scenario stream: 4 samples, 30,002 variants. -/
def scenarioSites : List Site :=
  List.replicate 14999 siteRAAA ++ List.replicate 15001 siteHHHH ++
    [siteAAAA, siteMAAA]

/-- Result of accumulating the scenario stream with no restrictions. -/
def scenarioCounts : Counts :=
  consume_reader (Counts.new ["I0", "I1", "I2", "I3"] none) scenarioSites

/-- C2: accumulating the end-to-end scenario with no restrictions gives
`overlap(0,1) = 30001` (the site missing for sample 0 is excluded),
`mismatches(0,1) = 14999 * 2 + 15001 * 1`, and for the pair (1,2) a rate
determined purely by the heterozygous and identical sites:
`mismatches(1,2) = 15001` with full overlap `30002`
(`totals(1,2) = 2 * 30002`), so `rate(1,2) = 15001 / 60004`. -/
theorem scenario_counts_expected :
    scenarioCounts.site_overlaps (idx_from_parts 4 0 1) = 30001 ∧
    scenarioCounts.mismatches (idx_from_parts 4 0 1) = 14999 * 2 + 15001 * 1 ∧
    scenarioCounts.site_overlaps (idx_from_parts 4 1 2) = 30002 ∧
    scenarioCounts.mismatches (idx_from_parts 4 1 2) = 15001 ∧
    scenarioCounts.totals (idx_from_parts 4 1 2) = 2 * 30002 := by
  have hsc : scenarioCounts =
      consume_reader (Counts.new ["I0", "I1", "I2", "I3"] none) scenarioSites :=
    rfl
  have e1 : scenarioSites =
      List.replicate 14999 siteRAAA ++
        (List.replicate 15001 siteHHHH ++ [siteAAAA, siteMAAA]) := by
    rw [scenarioSites, List.append_assoc]
  have hM : ∀ k,
      (consume_reader (Counts.new ["I0", "I1", "I2", "I3"] none)
        scenarioSites).mismatches k =
      0 + streamContribM 4 none scenarioSites k := fun k =>
    consume_reader_mismatches (Counts.new ["I0", "I1", "I2", "I3"] none)
      scenarioSites k
  have hT : ∀ k,
      (consume_reader (Counts.new ["I0", "I1", "I2", "I3"] none)
        scenarioSites).totals k =
      0 + streamContribT 4 none scenarioSites k := fun k =>
    consume_reader_totals (Counts.new ["I0", "I1", "I2", "I3"] none)
      scenarioSites k
  have hM01 := hM (idx_from_parts 4 0 1)
  have hT01 := hT (idx_from_parts 4 0 1)
  have hM12 := hM (idx_from_parts 4 1 2)
  have hT12 := hT (idx_from_parts 4 1 2)
  rw [e1, streamContribM_append, streamContribM_replicate,
    streamContribM_append, streamContribM_replicate] at hM01 hM12
  rw [e1, streamContribT_append, streamContribT_replicate,
    streamContribT_append, streamContribT_replicate] at hT01 hT12
  rw [show siteContribM 4 none siteRAAA (idx_from_parts 4 0 1) = 2 by decide,
    show siteContribM 4 none siteHHHH (idx_from_parts 4 0 1) = 1 by decide,
    show streamContribM 4 none [siteAAAA, siteMAAA] (idx_from_parts 4 0 1) = 0
      by decide] at hM01
  rw [show siteContribT 4 none siteRAAA (idx_from_parts 4 0 1) = 2 by decide,
    show siteContribT 4 none siteHHHH (idx_from_parts 4 0 1) = 2 by decide,
    show streamContribT 4 none [siteAAAA, siteMAAA] (idx_from_parts 4 0 1) = 2
      by decide] at hT01
  rw [show siteContribM 4 none siteRAAA (idx_from_parts 4 1 2) = 0 by decide,
    show siteContribM 4 none siteHHHH (idx_from_parts 4 1 2) = 1 by decide,
    show streamContribM 4 none [siteAAAA, siteMAAA] (idx_from_parts 4 1 2) = 0
      by decide] at hM12
  rw [show siteContribT 4 none siteRAAA (idx_from_parts 4 1 2) = 2 by decide,
    show siteContribT 4 none siteHHHH (idx_from_parts 4 1 2) = 2 by decide,
    show streamContribT 4 none [siteAAAA, siteMAAA] (idx_from_parts 4 1 2) = 4
      by decide] at hT12
  rw [Counts.site_overlaps, Counts.site_overlaps, hsc, e1, hM01, hT01, hM12,
    hT12]
  refine ⟨by norm_num, by norm_num, by norm_num, by norm_num, by norm_num⟩

/-- Cell addresses are injective on ordered in-range pairs: the flat index
`n * i + j` with `j < n` determines both coordinates. -/
theorem cell_inj (n a b i j : Nat) (hb : b < n) (hj : j < n)
    (h : n * a + b = n * i + j) : a = i ∧ b = j := by
  have hn : 0 < n := by omega
  have ha : (n * a + b) / n = a := by
    rw [Nat.mul_add_div hn, Nat.div_eq_of_lt hb]
    omega
  have hi : (n * i + j) / n = i := by
    rw [Nat.mul_add_div hn, Nat.div_eq_of_lt hj]
    omega
  have hai : a = i := by rw [← ha, ← hi, h]
  subst hai
  exact ⟨rfl, by omega⟩

theorem idx_from_parts_of_lt (n i j : Nat) (hij : i < j) :
    idx_from_parts n i j = n * i + j := by
  simp [idx_from_parts, hij]

/-- Test for a sample index occurring in a present-call list. -/
def hasIdx (ps : List (Nat × Allele)) (i : Nat) : Bool :=
  ps.any (fun p => p.1 = i)

/-- Both samples of a pair have a non-missing call at a site. -/
def coveredPair (s : Site) (i j : Nat) : Bool :=
  decide (s.genotypes.getD i Allele.Missing ≠ Allele.Missing) &&
    decide (s.genotypes.getD j Allele.Missing ≠ Allele.Missing)

theorem presentOf_pairwise (g : List Allele) :
    (presentOf g).Pairwise (fun p q => p.1 < q.1) := by
  apply List.Pairwise.filter
  rw [List.pairwise_iff_getElem]
  intro a b ha hb hab
  simp only [List.getElem_enum]
  simpa using hab

theorem presentOf_bound (g : List Allele) :
    ∀ p ∈ presentOf g, p.1 < g.length := by
  intro p hp
  have hmem : p ∈ g.enum := List.mem_of_mem_filter hp
  have hget := List.mem_enum_iff_getElem?.mp hmem
  exact (List.getElem?_eq_some.mp hget).1

theorem hasIdx_presentOf_iff (g : List Allele) (i : Nat) :
    hasIdx (presentOf g) i = true ↔
      ∃ _ : i < g.length, g[i] ≠ Allele.Missing := by
  unfold hasIdx presentOf
  rw [List.any_eq_true]
  constructor
  · rintro ⟨p, hp, hpi⟩
    rw [List.mem_filter] at hp
    obtain ⟨hmem, hpred⟩ := hp
    have hget := List.mem_enum_iff_getElem?.mp hmem
    have hp1 : p.1 = i := by simpa using hpi
    rw [hp1] at hget
    obtain ⟨hlt, hv⟩ := List.getElem?_eq_some.mp hget
    refine ⟨hlt, ?_⟩
    rw [hv]
    simpa using hpred
  · rintro ⟨hlt, hne⟩
    refine ⟨(i, g[i]), ?_, by simp⟩
    rw [List.mem_filter]
    refine ⟨List.mem_enum_iff_getElem?.mpr ?_, by simpa using hne⟩
    exact List.getElem?_eq_getElem hlt

theorem hasIdx_presentOf (g : List Allele) (i : Nat) (hi : i < g.length) :
    hasIdx (presentOf g) i =
      decide (g.getD i Allele.Missing ≠ Allele.Missing) := by
  have hgetD : g.getD i Allele.Missing = g[i] := List.getD_eq_getElem g _ hi
  by_cases h : g[i] ≠ Allele.Missing
  · rw [hgetD, decide_eq_true h]
    exact (hasIdx_presentOf_iff g i).mpr ⟨hi, h⟩
  · rw [hgetD, decide_eq_false h]
    rw [← Bool.not_eq_true]
    intro hc
    obtain ⟨_, hne⟩ := (hasIdx_presentOf_iff g i).mp hc
    exact h hne

theorem pairContribT_char (n : Nat) (mask : Option (Nat → Bool))
    (p q : Nat × Allele) (i j : Nat) (hij : i < j) (hj : j < n)
    (hpq : p.1 < q.1) (hq : q.1 < n) :
    pairContribT n mask p q (n * i + j) =
      if maskAdmits mask (n * i + j) ∧ p.1 = i ∧ q.1 = j then 2 else 0 := by
  unfold pairContribT
  rw [idx_from_parts_of_lt n p.1 q.1 hpq]
  by_cases hk : (n * i + j) = n * p.1 + q.1
  · obtain ⟨hpi, hqj⟩ := cell_inj n p.1 q.1 i j hq hj hk.symm
    rw [← hk]
    by_cases hm : maskAdmits mask (n * i + j) = true
    · simp [hm, hpi, hqj]
    · simp [hm]
  · rw [if_neg, if_neg]
    · rintro ⟨_, hpi, hqj⟩
      exact hk (by rw [hpi, hqj])
    · rintro ⟨_, hkk⟩
      exact hk hkk

theorem hasIdx_eq_false_of_lt (rest : List (Nat × Allele)) (m : Nat)
    (h : ∀ r ∈ rest, m < r.1) : hasIdx rest m = false := by
  rw [← Bool.not_eq_true]
  intro hc
  obtain ⟨r, hr, hrm⟩ := List.any_eq_true.mp hc
  have h1 := h r hr
  have h2 : r.1 = m := by simpa using hrm
  omega

theorem sum_pairContribT_with_head (n : Nat) (mask : Option (Nat → Bool))
    (i j : Nat) (hij : i < j) (hj : j < n) (p : Nat × Allele) :
    ∀ ts : List (Nat × Allele), ts.Pairwise (fun a b => a.1 < b.1) →
      (∀ q ∈ ts, p.1 < q.1 ∧ q.1 < n) →
      (ts.map (fun q => pairContribT n mask p q (n * i + j))).sum =
        if maskAdmits mask (n * i + j) ∧ p.1 = i ∧ hasIdx ts j then 2
        else 0 := by
  intro ts
  induction ts with
  | nil =>
    intro _ _
    simp [hasIdx]
  | cons q rest ih =>
    intro hpw hbound
    rw [List.map_cons, List.sum_cons,
      pairContribT_char n mask p q i j hij hj
        (hbound q (by simp)).1 (hbound q (by simp)).2,
      ih (List.Pairwise.of_cons hpw)
        (fun r hr => hbound r (by simp [hr]))]
    have hcons : hasIdx (q :: rest) j = (decide (q.1 = j) || hasIdx rest j) := by
      simp [hasIdx]
    rw [hcons]
    by_cases hqj : q.1 = j
    · have hrestj : hasIdx rest j = false := by
        apply hasIdx_eq_false_of_lt
        intro r hr
        have := (List.pairwise_cons.mp hpw).1 r hr
        omega
      rw [hrestj]
      simp [hqj]
    · simp [hqj]

theorem sum_pairsOf_contribT (n : Nat) (mask : Option (Nat → Bool))
    (i j : Nat) (hij : i < j) (hj : j < n) :
    ∀ ps : List (Nat × Allele), ps.Pairwise (fun a b => a.1 < b.1) →
      (∀ p ∈ ps, p.1 < n) →
      ((pairsOf ps).map
        (fun r => pairContribT n mask r.1 r.2 (n * i + j))).sum =
        if maskAdmits mask (n * i + j) ∧ hasIdx ps i ∧ hasIdx ps j then 2
        else 0 := by
  intro ps
  induction ps with
  | nil =>
    intro _ _
    simp [pairsOf, hasIdx]
  | cons p rest ih =>
    intro hpw hbound
    have hlt : ∀ r ∈ rest, p.1 < r.1 := (List.pairwise_cons.mp hpw).1
    rw [show pairsOf (p :: rest) =
        (rest.map (fun y => (p, y))) ++ pairsOf rest from rfl,
      List.map_append, List.sum_append, List.map_map]
    have hhead : ((rest.map (fun y => (p, y))).map
        (fun r => pairContribT n mask r.1 r.2 (n * i + j))).sum =
        if maskAdmits mask (n * i + j) ∧ p.1 = i ∧ hasIdx rest j then 2
        else 0 := by
      rw [List.map_map]
      exact sum_pairContribT_with_head n mask i j hij hj p rest
        (List.Pairwise.of_cons hpw)
        (fun r hr => ⟨hlt r hr, hbound r (by simp [hr])⟩)
    rw [List.map_map] at hhead
    rw [hhead, ih (List.Pairwise.of_cons hpw) (fun r hr => hbound r (by simp [hr]))]
    have hconsi : hasIdx (p :: rest) i = (decide (p.1 = i) || hasIdx rest i) := by
      simp [hasIdx]
    have hconsj : hasIdx (p :: rest) j = (decide (p.1 = j) || hasIdx rest j) := by
      simp [hasIdx]
    rw [hconsi, hconsj]
    by_cases hpi : p.1 = i
    · have hresti : hasIdx rest i = false :=
        hasIdx_eq_false_of_lt rest i (fun r hr => hpi ▸ hlt r hr)
      have hpj : ¬ (p.1 = j) := by omega
      rw [hresti]
      simp [hpi, hpj, show ¬(i = j) from by omega]
    · by_cases hpj : p.1 = j
      · have hresti : hasIdx rest i = false :=
          hasIdx_eq_false_of_lt rest i (fun r hr => by
            have := hlt r hr
            omega)
        rw [hresti]
        simp [hpi, hpj, show ¬(j = i) from by omega]
      · simp [hpi, hpj]

theorem siteContribT_char (n : Nat) (mask : Option (Nat → Bool)) (s : Site)
    (i j : Nat) (hij : i < j) (hj : j < n)
    (hlen : s.genotypes.length = n) :
    siteContribT n mask s (n * i + j) =
      if maskAdmits mask (n * i + j) ∧ coveredPair s i j then 2 else 0 := by
  unfold siteContribT
  rw [sum_pairsOf_contribT n mask i j hij hj (presentOf s.genotypes)
    (presentOf_pairwise s.genotypes)
    (fun p hp => hlen ▸ presentOf_bound s.genotypes p hp),
    hasIdx_presentOf s.genotypes i (by omega),
    hasIdx_presentOf s.genotypes j (by omega)]
  by_cases h1 : s.genotypes.getD i Allele.Missing ≠ Allele.Missing <;>
    by_cases h2 : s.genotypes.getD j Allele.Missing ≠ Allele.Missing <;>
      simp [coveredPair, h1, h2]

theorem streamContribT_char (n : Nat) (mask : Option (Nat → Bool))
    (i j : Nat) (hij : i < j) (hj : j < n) :
    ∀ sites : List Site, (∀ s ∈ sites, s.genotypes.length = n) →
      streamContribT n mask sites (n * i + j) =
        if maskAdmits mask (n * i + j) then
          2 * sites.countP (fun s => coveredPair s i j)
        else 0 := by
  intro sites
  induction sites with
  | nil =>
    intro _
    simp [streamContribT]
  | cons s rest ih =>
    intro hlen
    rw [show streamContribT n mask (s :: rest) (n * i + j) =
        siteContribT n mask s (n * i + j) +
          streamContribT n mask rest (n * i + j) from by
      simp [streamContribT],
      siteContribT_char n mask s i j hij hj (hlen s (by simp)),
      ih (fun t ht => hlen t (by simp [ht]))]
    by_cases hm : maskAdmits mask (n * i + j) = true
    · rw [List.countP_cons]
      by_cases hc : coveredPair s i j = true
      · simp only [hm, hc, and_self, if_true, true_and]
        ring
      · simp [hm, hc]
    · simp [hm]

theorem even_siteContribT (n : Nat) (mask : Option (Nat → Bool)) (s : Site)
    (k : Nat) : Even (siteContribT n mask s k) := by
  unfold siteContribT
  induction pairsOf (presentOf s.genotypes) with
  | nil => simp
  | cons p rest ih =>
    rw [List.map_cons, List.sum_cons]
    apply Even.add _ ih
    unfold pairContribT
    split
    · exact ⟨1, rfl⟩
    · exact ⟨0, rfl⟩

theorem siteContribM_le_siteContribT (n : Nat) (mask : Option (Nat → Bool))
    (s : Site) (k : Nat) :
    siteContribM n mask s k ≤ siteContribT n mask s k := by
  unfold siteContribM siteContribT
  apply List.sum_le_sum
  intro r _
  unfold pairContribM pairContribT
  split
  · have := (mismatch_eq_specMismatch_except_het_het r.1.2 r.2.2)
    by_cases h1 : r.1.2 = Allele.Missing <;> by_cases h2 : r.2.2 = Allele.Missing
    · simp [h1, h2, Allele.mismatch, mismatchTable, Allele.code]
    · simp [h1, Allele.mismatch, mismatchTable, Allele.code]
      revert h2
      rcases r.2.2 <;> simp [Allele.code, mismatchTable]
    · rcases r.1.2 <;> simp [Allele.mismatch, Allele.code, mismatchTable, h2]
    · exact (this h1 h2).2.1
  · exact Nat.le_refl 0

theorem even_streamContribT (n : Nat) (mask : Option (Nat → Bool))
    (sites : List Site) (k : Nat) : Even (streamContribT n mask sites k) := by
  unfold streamContribT
  induction sites with
  | nil => simp
  | cons s rest ih =>
    rw [List.map_cons, List.sum_cons]
    exact (even_siteContribT n mask s k).add ih

theorem streamContribM_le_streamContribT (n : Nat)
    (mask : Option (Nat → Bool)) (sites : List Site) (k : Nat) :
    streamContribM n mask sites k ≤ streamContribT n mask sites k := by
  unfold streamContribM streamContribT
  apply List.sum_le_sum
  intro s _
  exact siteContribM_le_siteContribT n mask s k

/-- C8: invariants of the `Counts` matrix.  First conjunct: one accumulation
step (`consumeSite`) preserves, at every cell, evenness of `totals` and
`mismatches ≤ totals`.  Second conjunct: both hold at every cell after a
complete accumulation from the freshly constructed state.  Third conjunct:
for a cell `idx(i, j)` admitted by the mask, the completed `totals` equals
twice the number of consumed sites at which both samples `i` and `j` had a
non-missing call, so `totals / 2` is exactly that site overlap. -/
theorem counts_matrix_invariant (samples : List String)
    (pairs : Option (List (Nat × Nat))) (sites : List Site) (i j : Nat)
    (hij : i < j) (hj : j < samples.length)
    (hlen : ∀ s ∈ sites, s.genotypes.length = samples.length) :
    (∀ (c : Counts) (s : Site) (k : Nat),
      Even (c.totals k) ∧ c.mismatches k ≤ c.totals k →
        Even ((consumeSite c s).totals k) ∧
          (consumeSite c s).mismatches k ≤ (consumeSite c s).totals k) ∧
    (∀ k,
      Even ((consume_reader (Counts.new samples pairs) sites).totals k) ∧
        (consume_reader (Counts.new samples pairs) sites).mismatches k ≤
          (consume_reader (Counts.new samples pairs) sites).totals k) ∧
    (maskAdmits (Counts.new samples pairs).indices_to_count
        (idx_from_parts samples.length i j) = true →
      (consume_reader (Counts.new samples pairs) sites).totals
          (idx_from_parts samples.length i j) =
        2 * sites.countP (fun s => coveredPair s i j) ∧
      (consume_reader (Counts.new samples pairs) sites).totals
          (idx_from_parts samples.length i j) / 2 =
        sites.countP (fun s => coveredPair s i j)) := by
  refine ⟨?_, ?_, ?_⟩
  · rintro c s k ⟨he, hle⟩
    rw [consumeSite_totals, consumeSite_mismatches]
    exact ⟨he.add (even_siteContribT c.n_samples c.indices_to_count s k),
      Nat.add_le_add hle
        (siteContribM_le_siteContribT c.n_samples c.indices_to_count s k)⟩
  · intro k
    rw [consume_reader_totals, consume_reader_mismatches]
    constructor
    · exact (by simp [Counts.new] : Even ((Counts.new samples pairs).totals k)).add
        (even_streamContribT _ _ sites k)
    · apply Nat.add_le_add
      · simp [Counts.new]
      · exact streamContribM_le_streamContribT _ _ sites k
  · intro hadm
    have hidx : idx_from_parts samples.length i j = samples.length * i + j :=
      idx_from_parts_of_lt samples.length i j hij
    have hns : (Counts.new samples pairs).n_samples = samples.length := rfl
    have h := consume_reader_totals (Counts.new samples pairs) sites
      (idx_from_parts samples.length i j)
    rw [h, hns, hidx,
      streamContribT_char samples.length
        (Counts.new samples pairs).indices_to_count i j hij hj sites hlen,
      if_pos (by rw [← hidx]; exact hadm)]
    constructor
    · simp [Counts.new]
    · simp [Counts.new]

/-- Witness for `counts_matrix_invariant`: two samples, one site where both
calls are present. -/
theorem counts_matrix_invariant_witness :
    (consume_reader (Counts.new ["a", "b"] none)
        [Site.mk [Allele.Ref, Allele.Alt]]).totals (idx_from_parts 2 0 1) =
      2 * ([Site.mk [Allele.Ref, Allele.Alt]].countP
        (fun s => coveredPair s 0 1)) ∧
    (consume_reader (Counts.new ["a", "b"] none)
        [Site.mk [Allele.Ref, Allele.Alt]]).totals (idx_from_parts 2 0 1) / 2 =
      [Site.mk [Allele.Ref, Allele.Alt]].countP (fun s => coveredPair s 0 1) :=
  (counts_matrix_invariant ["a", "b"] none [Site.mk [Allele.Ref, Allele.Alt]]
    0 1 (by decide) (by decide) (by decide)).2.2 rfl

/-- Subset of `CustomError` (`src/error.rs`) reached by the embedded code
paths; payload-free I/O details are dropped. -/
inductive Err
  | samplePairsEmpty
  | samplePairUnknownSample (sample : String)
  | samplePairDuplicate (sample : String)
  | variantIndexHigh (idx n_variants : Nat)
  | variantIndexLow
  | sampleCount (n_samples : Nat)
  | variantCount (n_variants : Nat)
  | eigenstratGenoFields (line_num n_fields expected : Nat)
  | eigenstratGenoVariantCount (expected found : Nat)
  | readWithoutPath
  | readWithPath
  | packedAncestryMapNAgreement (n_header n_ind : Nat)
  | packedAncestryMapVAgreement (n_header n_snp : Nat)
  | packedAncestryMapFileSize
  | plinkBedHeaderMagic
  | plinkBedMode
  | plinkBedFileSize (expected found : Nat)
deriving DecidableEq, Repr

/-- Two-bit code to `Allele` for the GENO formats, the `match code` of
`src/reader/packedancestrymap.rs` lines 232-238 (same table at
`src/reader/transposed_packedancestrymap.rs` lines 146-152). -/
def decode2bit (code : Nat) : Allele :=
  if code = 0 then Allele.Alt
  else if code = 1 then Allele.Het
  else if code = 2 then Allele.Ref
  else Allele.Missing

/-- Decode of sample `i` from a packed variant block,
`src/reader/packedancestrymap.rs` lines 227-231: byte `i / 4`, shift
`6 - 2 * (i % 4)`, mask to two bits. -/
def packedDecodeSample (block : List Nat) (i : Nat) : Allele :=
  let byte := block.getD (i / 4) 0
  let shift := 6 - 2 * (i % 4)
  decode2bit ((byte >>> shift) % 4)

/-- Modelled from the spec: the sample-keep branch of the Packed-Matrix
per-variant decode.  The `cli.rs` caller passes a resolved sample-keep index
list to `PackedAncestryMapReader::open`, but the reader version in `src/`
(`parse_variant_block`, lines 222-241) predates sample filtering and only
contains the emit-all branch, which the `none` case below reproduces.  The
`some` case follows §4.2 of the spec: "Per-variant decode either emits all
samples or, if a sample-keep index list was resolved, only the kept
positions, preserving their relative order" (the same structure as the
in-repo `parse_variant_block` of `src/reader/plink.rs`, lines 216-237). -/
def packedParseVariantBlock (block : List Nat) (n_samples : Nat)
    (indices_to_keep : Option (List Nat)) : List Allele :=
  match indices_to_keep with
  | some idxs => idxs.map (packedDecodeSample block)
  | none => (List.range n_samples).map (packedDecodeSample block)

/-- Loop of `select_samples` (`src/reader/common/samples.rs` lines 11-26):
walk the samples in file order with their index, removing each matched id
from the keep-set; returns kept ids, their original indices and the
unmatched remainder of the keep-set. -/
def select_samples_go : List String → List String → Nat →
    List String × List Nat × List String
  | [], ks, _ => ([], [], ks)
  | s :: rest, ks, idx =>
    if s ∈ ks then
      let r := select_samples_go rest (ks.erase s) (idx + 1)
      (s :: r.1, idx :: r.2.1, r.2.2)
    else
      select_samples_go rest ks (idx + 1)

/-- Function `select_samples`, `src/reader/common/samples.rs` lines 7-31: with
no filter all samples are kept; otherwise the kept subset plus indices are
returned, and a leftover requested name is an unknown-sample error. -/
def select_samples (samples : List String) (filter : Option (List String)) :
    Except Err (List String × Option (List Nat)) :=
  match filter with
  | none => .ok (samples, none)
  | some keep =>
    let r := select_samples_go samples keep 0
    match r.2.2 with
    | [] => .ok (r.1, some r.2.1)
    | missing :: _ => .error (.samplePairUnknownSample missing)

theorem select_samples_go_indices :
    ∀ (samples ks : List String) (idx : Nat),
      (select_samples_go samples ks idx).2.1.Pairwise (· < ·) ∧
      ∀ x ∈ (select_samples_go samples ks idx).2.1,
        idx ≤ x ∧ x < idx + samples.length := by
  intro samples
  induction samples with
  | nil =>
    intro ks idx
    simp [select_samples_go]
  | cons s rest ih =>
    intro ks idx
    rw [select_samples_go]
    by_cases hmem : s ∈ ks
    · simp only [hmem, if_true]
      obtain ⟨hpw, hbound⟩ := ih (ks.erase s) (idx + 1)
      constructor
      · exact List.pairwise_cons.mpr
          ⟨fun x hx => by have := hbound x hx; omega, hpw⟩
      · intro x hx
        rcases List.mem_cons.mp hx with h | h
        · subst h
          simp
        · have := hbound x h
          simp only [List.length_cons]
          omega
    · simp only [hmem, if_false]
      obtain ⟨hpw, hbound⟩ := ih ks (idx + 1)
      refine ⟨hpw, fun x hx => ?_⟩
      have := hbound x hx
      simp only [List.length_cons]
      omega

theorem sublist_range'_of_pairwise :
    ∀ (idxs : List Nat) (lo n : Nat), idxs.Pairwise (· < ·) →
      (∀ x ∈ idxs, lo ≤ x ∧ x < n) →
      idxs.Sublist (List.range' lo (n - lo)) := by
  intro idxs
  induction idxs with
  | nil =>
    intro lo n _ _
    exact List.nil_sublist _
  | cons a rest ih =>
    intro lo n hpw hb
    obtain ⟨hlo, han⟩ := hb a (by simp)
    have hsplit : List.range' lo (n - lo) =
        List.range' lo (a - lo) ++ (a :: List.range' (a + 1) (n - (a + 1))) := by
      have h1 := List.range'_append lo (a - lo) ((n - (a + 1)) + 1) 1
      rw [show 1 * (a - lo) = a - lo from by omega,
        show lo + (a - lo) = a from by omega,
        show (n - (a + 1)) + 1 + (a - lo) = n - lo from by omega,
        List.range'_succ] at h1
      exact h1.symm
    rw [hsplit]
    have htail : rest.Sublist (List.range' (a + 1) (n - (a + 1))) := by
      apply ih (a + 1) n (List.Pairwise.of_cons hpw)
      intro x hx
      have h1 := (List.pairwise_cons.mp hpw).1 x hx
      have h2 := hb x (by simp [hx])
      omega
    exact (List.Sublist.cons₂ a htail).trans
      (List.sublist_append_right _ _)

theorem sublist_range_of_pairwise (idxs : List Nat) (n : Nat)
    (hpw : idxs.Pairwise (· < ·)) (hb : ∀ x ∈ idxs, x < n) :
    idxs.Sublist (List.range n) := by
  have h := sublist_range'_of_pairwise idxs 0 n hpw
    (fun x hx => ⟨Nat.zero_le x, hb x hx⟩)
  simpa [List.range_eq_range'] using h

/-- C4: for the Packed-Matrix (GENO) decoder, when `select_samples` has
resolved a sample-keep index list, each per-variant decode emits exactly the
decoded calls at the kept original positions (in the keep list's order), and
that output is a sublist of the all-samples decode — the kept positions in
their original relative order; with no list resolved the decode emits all
`n_samples` calls. -/
theorem packed_decode_keep_order (samples : List String)
    (filter : List String) (kept : List String) (idxs : List Nat)
    (block : List Nat)
    (h : select_samples samples (some filter) =
      Except.ok (kept, some idxs)) :
    packedParseVariantBlock block samples.length none =
      (List.range samples.length).map (packedDecodeSample block) ∧
    packedParseVariantBlock block samples.length (some idxs) =
      idxs.map (packedDecodeSample block) ∧
    (packedParseVariantBlock block samples.length (some idxs)).Sublist
      (packedParseVariantBlock block samples.length none) := by
  have hidx : idxs = (select_samples_go samples filter 0).2.1 := by
    simp only [select_samples] at h
    split at h
    · simp only [Except.ok.injEq, Prod.mk.injEq, Option.some.injEq] at h
      exact h.2.symm
    · simp at h
  obtain ⟨hpw, hbound⟩ := select_samples_go_indices samples filter 0
  refine ⟨rfl, rfl, ?_⟩
  show (idxs.map (packedDecodeSample block)).Sublist
    ((List.range samples.length).map (packedDecodeSample block))
  apply List.Sublist.map
  apply sublist_range_of_pairwise
  · rw [hidx]
    exact hpw
  · intro x hx
    rw [hidx] at hx
    have := hbound x hx
    omega

/-- Witness for `packed_decode_keep_order`: three samples, keep-set resolving
to original indices 0 and 2. -/
theorem packed_decode_keep_order_witness :
    select_samples ["A", "B", "C"] (some ["C", "A"]) =
      Except.ok (["A", "C"], some [0, 2]) ∧
    (packedParseVariantBlock [179] 3 (some [0, 2])).Sublist
      (packedParseVariantBlock [179] 3 none) :=
  ⟨rfl,
   (packed_decode_keep_order ["A", "B", "C"] ["C", "A"] ["A", "C"] [0, 2]
      [179] rfl).2.2⟩

/-- Character-to-`Allele` table of `parse_variant_row`,
`src/reader/unpacked_eigenstrat.rs` lines 155-161.  A character outside the
four documented codes hits the `unreachable!` arm, modelled as `none`
(process panic). -/
def parseAllele (c : Char) : Option Allele :=
  if c = '0' then some Allele.Alt
  else if c = '1' then some Allele.Het
  else if c = '2' then some Allele.Ref
  else if c = '9' then some Allele.Missing
  else none

/-- Loop of `parse_variant_row`, `src/reader/unpacked_eigenstrat.rs`
lines 148-164: enumerate the characters, keep a position when no keep-list
was resolved or the list contains it, and translate its code.  A panic
(`none`) aborts the whole decode. -/
def parse_variant_row_go (keepIdxs : Option (List Nat)) :
    List Char → Nat → Option (List Allele)
  | [], _ => some []
  | c :: rest, idx =>
    let keep := match keepIdxs with
      | some idxs => idxs.contains idx
      | none => true
    if keep then
      match parseAllele c with
      | some a => (parse_variant_row_go keepIdxs rest (idx + 1)).map (a :: ·)
      | none => none
    else parse_variant_row_go keepIdxs rest (idx + 1)

/-- Function `parse_variant_row`, `src/reader/unpacked_eigenstrat.rs`
lines 133-166 (`n_samples` only sizes the Rust vector's capacity). -/
def parse_variant_row (cleaned : List Char) (n_samples : Nat)
    (indices_to_keep : Option (List Nat)) : Option (List Allele) :=
  parse_variant_row_go indices_to_keep cleaned 0

theorem parse_variant_row_go_none_bad :
    ∀ (line : List Char) (idx : Nat), (∃ c ∈ line, parseAllele c = none) →
      parse_variant_row_go none line idx = none := by
  intro line
  induction line with
  | nil =>
    rintro _ ⟨c, hc, _⟩
    exact absurd hc (List.not_mem_nil c)
  | cons c rest ih =>
    rintro idx ⟨d, hd, hbad⟩
    rw [parse_variant_row_go]
    simp only [if_true]
    rcases List.mem_cons.mp hd with h | h
    · subst h
      rw [hbad]
    · cases hc : parseAllele c with
      | none => rfl
      | some a =>
        rw [ih (idx + 1) ⟨d, h, hbad⟩]
        rfl

theorem parse_variant_row_go_none_good :
    ∀ (line : List Char) (idx : Nat),
      (∀ c ∈ line, c ∈ ['0', '1', '2', '9']) →
      (parse_variant_row_go none line idx).isSome = true := by
  intro line
  induction line with
  | nil =>
    intro _ _
    rfl
  | cons c rest ih =>
    intro idx hgood
    rw [parse_variant_row_go]
    simp only [if_true]
    have hc := hgood c (by simp)
    have hsome : (parseAllele c).isSome = true := by
      rcases List.mem_cons.mp hc with h | h
      · simp [parseAllele, h]
      rcases List.mem_cons.mp h with h | h
      · simp [parseAllele, h]
      rcases List.mem_cons.mp h with h | h
      · simp [parseAllele, h]
      rcases List.mem_cons.mp h with h | h
      · simp [parseAllele, h]
      · exact absurd h (List.not_mem_nil c)
    cases hpc : parseAllele c with
    | none => rw [hpc] at hsome; exact absurd hsome (by simp)
    | some a =>
      have hrest := ih (idx + 1) (fun d hd => hgood d (by simp [hd]))
      simp only [Option.isSome_map]
      simpa using hrest

/-- C10: in the Unpacked-Text decoder, a matrix line whose stripped length
equals the sample count decodes totally when every character is one of the
four documented codes, but a character outside {0, 1, 2, 9} reaches the
`unreachable!` arm — a panic (modelled `none`), not a reported error. -/
theorem parse_variant_row_panics_on_bad_char (line : List Char) (n : Nat)
    (hlen : line.length = n) :
    ((∃ c ∈ line, parseAllele c = none) →
      parse_variant_row line n none = none) ∧
    ((∀ c ∈ line, c ∈ ['0', '1', '2', '9']) →
      (parse_variant_row line n none).isSome = true) :=
  ⟨fun h => parse_variant_row_go_none_bad line 0 h,
   fun h => parse_variant_row_go_none_good line 0 h⟩

/-- Witness for `parse_variant_row_panics_on_bad_char`: the two-character
line "03" with two samples panics on the '3'. -/
theorem parse_variant_row_panics_on_bad_char_witness :
    parse_variant_row ['0', '3'] 2 none = none :=
  (parse_variant_row_panics_on_bad_char ['0', '3'] 2 rfl).1
    ⟨'3', by decide, by decide⟩

/-- Outcome of one pull on an embedded site stream: an item, a wrapped error,
end of stream, or a process panic. -/
inductive StreamStep
  | yield (s : Site)
  | fail (e : Err)
  | done
  | panicked
deriving DecidableEq, Repr

/-- Iterator state of `PackedAncestryMapReader`,
`src/reader/packedancestrymap.rs` lines 14-20: header counts, cursor, block
size and the unread bytes of the matrix file after the header block. -/
structure PackedState where
  n_samples : Nat
  n_variants : Nat
  next_variant_idx : Nat
  block_size : Nat
  bytes : List Nat
deriving DecidableEq, Repr

/-- Method `next` of `PackedAncestryMapReader`,
`src/reader/packedancestrymap.rs` lines 106-123: past the last variant yield
nothing; otherwise `read_exact` one block (it succeeds exactly when
`block_size` bytes remain) and decode it, or poison the cursor
(`next_variant_idx = n_variants`) and yield the read error. -/
def packedNext (st : PackedState) : StreamStep × PackedState :=
  if st.n_variants ≤ st.next_variant_idx then (.done, st)
  else if st.block_size ≤ st.bytes.length then
    (.yield ⟨packedParseVariantBlock (st.bytes.take st.block_size)
        st.n_samples none⟩,
     { st with bytes := st.bytes.drop st.block_size,
               next_variant_idx := st.next_variant_idx + 1 })
  else
    (.fail .readWithoutPath, { st with next_variant_idx := st.n_variants })

/-- Iterator state of `EigenstratReader`,
`src/reader/unpacked_eigenstrat.rs` lines 11-19: counts, cursor, the unread
lines of the matrix file, and the resolved restriction sets. -/
structure EigState where
  n_samples : Nat
  n_variants : Nat
  next_variant_idx : Nat
  lines : List (List Char)
  sample_indices_to_keep : Option (List Nat)
  variant_indices_to_keep : Option (List Nat)
deriving DecidableEq, Repr

/-- Variant-keep test of `EigenstratReader::next`,
`src/reader/unpacked_eigenstrat.rs` lines 91-94. -/
def eigKeep (st : EigState) : Bool :=
  match st.variant_indices_to_keep with
  | some set => set.contains st.next_variant_idx
  | none => true

/-- Whitespace stripping of `EigenstratReader::next`,
`src/reader/unpacked_eigenstrat.rs` line 113. -/
def eigClean (line : List Char) : List Char :=
  line.filter (fun c => ! c.isWhitespace)

/-- Cursor advance after a successful `read_line`:
`self.next_variant_idx += 1` with the consumed line dropped. -/
def eigAdvance (st : EigState) (rest : List (List Char)) : EigState :=
  { st with lines := rest, next_variant_idx := st.next_variant_idx + 1 }

/-- Loop body of `EigenstratReader::next`,
`src/reader/unpacked_eigenstrat.rs` lines 89-130, with fuel bounding the
skip loop (each iteration advances `next_variant_idx`, so
`n_variants - next_variant_idx` suffices).  An exhausted line list is the
`read_line`-returns-empty case: the premature-EOF error that poisons the
cursor.  A wrong stripped line length yields its error with the cursor only
past the already-performed increment; decode of a kept well-sized line
yields the site, or the `parse_variant_row` panic. -/
def eigNextAux : Nat → EigState → StreamStep × EigState
  | 0, st => (.done, st)
  | fuel + 1, st =>
    if st.next_variant_idx < st.n_variants then
      match st.lines with
      | [] =>
        (.fail (.eigenstratGenoVariantCount st.n_variants st.next_variant_idx),
         { st with next_variant_idx := st.n_variants })
      | line :: rest =>
        if eigKeep st then
          if (eigClean line).length ≠ st.n_samples then
            (.fail (.eigenstratGenoFields (st.next_variant_idx + 1)
                (eigClean line).length st.n_samples), eigAdvance st rest)
          else
            match parse_variant_row (eigClean line) st.n_samples
                st.sample_indices_to_keep with
            | some genotypes => (.yield ⟨genotypes⟩, eigAdvance st rest)
            | none => (.panicked, eigAdvance st rest)
        else eigNextAux fuel (eigAdvance st rest)
    else (.done, st)

/-- Method `next` of `EigenstratReader` with the canonical fuel. -/
def eigNext (st : EigState) : StreamStep × EigState :=
  eigNextAux (st.n_variants - st.next_variant_idx) st

theorem eigNextAux_variantCount_fail :
    ∀ (fuel : Nat) (st : EigState) (x y : Nat) (st' : EigState),
      eigNextAux fuel st =
        (.fail (.eigenstratGenoVariantCount x y), st') →
      st'.next_variant_idx = st'.n_variants := by
  intro fuel
  induction fuel with
  | zero =>
    intro st x y st' h
    simp [eigNextAux] at h
  | succ fuel ih =>
    intro st x y st' h
    rw [eigNextAux] at h
    by_cases hidx : st.next_variant_idx < st.n_variants
    · rw [if_pos hidx] at h
      rcases hl : st.lines with _ | ⟨line, rest⟩
      · rw [hl] at h
        simp only [Prod.mk.injEq] at h
        rw [← h.2]
      · rw [hl] at h
        simp only [] at h
        by_cases hk : eigKeep st = true
        · rw [if_pos hk] at h
          by_cases hlen2 : (eigClean line).length ≠ st.n_samples
          · rw [if_pos hlen2] at h
            simp at h
          · rw [if_neg hlen2] at h
            rcases hp : parse_variant_row (eigClean line) st.n_samples
                st.sample_indices_to_keep with _ | g
            · rw [hp] at h
              simp at h
            · rw [hp] at h
              simp at h
        · rw [if_neg (by simpa using hk)] at h
          exact ih _ x y st' h
    · rw [if_neg hidx] at h
      simp at h

/-- C9 (amended): once the Packed-Matrix stream yields any error, or the
Unpacked-Text stream yields its premature end-of-file error, the cursor sits
at `n_variants`, so every later pull returns `done` with the state unchanged
— the stream is permanently poisoned.  The Unpacked-Text line-length error,
by contrast, does not poison the stream (see the counterexample). -/
theorem stream_poisoned_after_fatal (pst : PackedState) (est : EigState) :
    (∀ (e : Err) (pst' : PackedState), packedNext pst = (.fail e, pst') →
      packedNext pst' = (.done, pst')) ∧
    (∀ (x y : Nat) (est' : EigState),
      eigNext est = (.fail (.eigenstratGenoVariantCount x y), est') →
      eigNext est' = (.done, est')) := by
  constructor
  · intro e pst' h
    have hidx : pst'.next_variant_idx = pst'.n_variants := by
      unfold packedNext at h
      split at h
      · simp at h
      · split at h
        · simp at h
        · simp only [Prod.mk.injEq] at h
          rw [← h.2]
    unfold packedNext
    rw [if_pos (by omega)]
  · intro x y est' h
    have hidx : est'.next_variant_idx = est'.n_variants :=
      eigNextAux_variantCount_fail _ est x y est' h
    unfold eigNext
    rw [hidx, Nat.sub_self]
    rfl

/-- Witness for `stream_poisoned_after_fatal`: a packed stream that fails its
block read (no bytes left) answers `done` on the next pull. -/
theorem stream_poisoned_after_fatal_witness :
    packedNext
      { n_samples := 2, n_variants := 1, next_variant_idx := 1,
        block_size := 48, bytes := [] } =
      (.done,
       { n_samples := 2, n_variants := 1, next_variant_idx := 1,
         block_size := 48, bytes := [] }) :=
  (stream_poisoned_after_fatal
      { n_samples := 2, n_variants := 1, next_variant_idx := 0,
        block_size := 48, bytes := [] }
      { n_samples := 2, n_variants := 2, next_variant_idx := 0,
        lines := [], sample_indices_to_keep := none,
        variant_indices_to_keep := none }).1
    Err.readWithoutPath
    { n_samples := 2, n_variants := 1, next_variant_idx := 1,
      block_size := 48, bytes := [] } rfl

/-- Offending stream state for the Unpacked-Text decoder: two declared
variants and two samples, first matrix line of stripped length 3. -/
def eigBadState : EigState :=
  { n_samples := 2
    n_variants := 2
    next_variant_idx := 0
    lines := [['0', '1', '2'], ['0', '1']]
    sample_indices_to_keep := none
    variant_indices_to_keep := none }

/-- Counterexample to C9 as stated: the Unpacked-Text stream yields the fatal
line-length error `EigenstratGenoFields` and the very next pull still yields
an item, so not every fatal error permanently poisons every decoder's
stream. -/
theorem eig_stream_not_poisoned_after_length_error :
    (eigNext eigBadState).1 = .fail (.eigenstratGenoFields 1 3 2) ∧
    (eigNext (eigNext eigBadState).2).1 =
      .yield ⟨[Allele.Alt, Allele.Het]⟩ := by
  constructor <;> rfl

/-- Item of the variant-index specification after the `split(',')`, `trim`
and standard-library integer parsing of `parse_indices` (`src/cli.rs`
lines 297-306 and 320-324): a single index or an `a-b` range.  The
string-to-integer step itself is not embedded; items enter already
numeric. -/
inductive IndexItem
  | single (n : Nat)
  | range (a b : Nat)
deriving DecidableEq, Repr

/-- Set insertion of `HashSet::insert` over the model's index list. -/
def insertIdx (l : List Nat) (x : Nat) : List Nat :=
  if x ∈ l then l else l ++ [x]

/-- Loop of `parse_indices`, `src/cli.rs` lines 297-330: a 1-based index of 0
(single, or either range endpoint) is rejected as "must be positive"
(`VariantIndexLow`); otherwise indices are converted to 0-based and
inserted, ranges after swapping into order. -/
def parse_indices_go : List IndexItem → List Nat → Except Err (List Nat)
  | [], acc => .ok acc
  | .single idx :: rest, acc =>
    if idx = 0 then .error .variantIndexLow
    else parse_indices_go rest (insertIdx acc (idx - 1))
  | .range a b :: rest, acc =>
    if a = 0 ∨ b = 0 then .error .variantIndexLow
    else
      parse_indices_go rest
        (((List.range' (min a b) (max a b + 1 - min a b)).map
          (fun i => i - 1)).foldl insertIdx acc)

/-- Function `parse_indices`, `src/cli.rs` lines 294-332, over pre-parsed
items. -/
def parse_indices (items : List IndexItem) : Except Err (List Nat) :=
  parse_indices_go items []

/-- Test for an index item containing the rejected 1-based index 0. -/
def itemHasZero : IndexItem → Bool
  | .single n => n = 0
  | .range a b => a = 0 || b = 0

/-- Construction `EigenstratReader::open`,
`src/reader/unpacked_eigenstrat.rs` lines 21-69, as a function of the parsed
sidecar contents (`samples` the `.ind` ids, `variants` the `.snp` rows) and
the matrix lines.  Checks in source order: sample count ≥ 2, variant count
≥ 1, variant-keep bounds (first offending member in iteration order, reported
1-based), then sample selection. -/
def eigenstratOpen (samples variants : List String)
    (geno_lines : List (List Char)) (samples_to_keep : Option (List String))
    (variant_indices_to_keep : Option (List Nat)) : Except Err EigState :=
  if samples.length < 2 then .error (.sampleCount samples.length)
  else if variants.length < 1 then .error (.variantCount variants.length)
  else
    match variant_indices_to_keep.bind
        (fun set => set.find? (fun idx => variants.length ≤ idx)) with
    | some bad_idx => .error (.variantIndexHigh (bad_idx + 1) variants.length)
    | none =>
      match select_samples samples samples_to_keep with
      | .error e => .error e
      | .ok (_, keep_idxs) =>
        .ok { n_samples := samples.length
              n_variants := variants.length
              next_variant_idx := 0
              lines := geno_lines
              sample_indices_to_keep := keep_idxs
              variant_indices_to_keep := variant_indices_to_keep }

/-- State built by `TransposedPackedAncestryMapReader::open`,
`src/reader/transposed_packedancestrymap.rs` lines 16-24. -/
structure TransposedState where
  n_samples : Nat
  n_variants : Nat
  sample_block_size : Nat
  variant_indices_to_keep : Option (List Nat)
  next_variant_idx : Nat
  genotype_matrix : List Nat
deriving DecidableEq, Repr

/-- Construction `TransposedPackedAncestryMapReader::open`,
`src/reader/transposed_packedancestrymap.rs` lines 33-129, as a function of
the parsed header counts, the sidecar contents, the variant-keep set and the
post-header bytes.  Checks in source order: header/sidecar sample agreement,
sample count ≥ 2, header/sidecar variant agreement, variant count ≥ 1,
variant-keep bounds (the source sorts then finds, so the smallest offending
member is reported, 1-based), whole-payload `read_exact` (fails when fewer
than `n_samples * sample_block_size` bytes remain) and the no-trailing-bytes
check. -/
def transposedOpen (headerN headerV : Nat) (samples variants : List String)
    (variant_indices_to_keep : Option (List Nat)) (payload : List Nat) :
    Except Err TransposedState :=
  if samples.length ≠ headerN then
    .error (.packedAncestryMapNAgreement headerN samples.length)
  else if headerN < 2 then .error (.sampleCount headerN)
  else if variants.length ≠ headerV then
    .error (.packedAncestryMapVAgreement headerV variants.length)
  else if headerV < 1 then .error (.variantCount headerV)
  else
    match variant_indices_to_keep.bind
        (fun set => (set.filter (fun idx => headerV ≤ idx)).min?) with
    | some bad_idx => .error (.variantIndexHigh (bad_idx + 1) headerV)
    | none =>
      if payload.length < headerN * max 48 ((variants.length + 3) / 4) then
        .error .readWithPath
      else if headerN * max 48 ((variants.length + 3) / 4) <
          payload.length then
        .error .packedAncestryMapFileSize
      else
        .ok { n_samples := headerN
              n_variants := headerV
              sample_block_size := max 48 ((variants.length + 3) / 4)
              variant_indices_to_keep := variant_indices_to_keep
              next_variant_idx := 0
              genotype_matrix := payload }

/-- State built by `PlinkBedReader::open`, `src/reader/plink.rs`
lines 18-27. -/
structure PlinkState where
  n_samples : Nat
  n_variants : Nat
  sample_indices_to_keep : Option (List Nat)
  variant_indices_to_keep : Option (List Nat)
  next_variant_idx : Nat
  bed_body : List Nat
deriving DecidableEq, Repr

/-- Construction `PlinkBedReader::open`, `src/reader/plink.rs` lines 30-114,
as a function of the parsed `.fam` ids, the `.bim` variant count and the raw
`.bed` bytes.  Checks in source order: 3-byte header read, magic bytes, the
SNP-major mode flag, sample count ≥ 2, variant count ≥ 1, exact file size,
variant-keep bounds (smallest offending member, 1-based), sample
selection. -/
def plinkOpen (samples : List String) (n_variants : Nat)
    (bed_bytes : List Nat) (samples_to_keep : Option (List String))
    (variant_indices_to_keep : Option (List Nat)) : Except Err PlinkState :=
  if bed_bytes.length < 3 then .error .readWithPath
  else if ¬ (bed_bytes.getD 0 0 = 108 ∧ bed_bytes.getD 1 0 = 27) then
    .error .plinkBedHeaderMagic
  else if bed_bytes.getD 2 0 ≠ 1 then .error .plinkBedMode
  else if samples.length < 2 then .error (.sampleCount samples.length)
  else if n_variants < 1 then .error (.variantCount n_variants)
  else if bed_bytes.length ≠ 3 + (samples.length + 3) / 4 * n_variants then
    .error (.plinkBedFileSize (3 + (samples.length + 3) / 4 * n_variants)
      bed_bytes.length)
  else
    match variant_indices_to_keep.bind
        (fun set => (set.filter (fun idx => n_variants ≤ idx)).min?) with
    | some bad_idx => .error (.variantIndexHigh (bad_idx + 1) n_variants)
    | none =>
      match select_samples samples samples_to_keep with
      | .error e => .error e
      | .ok (filtered, keep) =>
        .ok { n_samples := filtered.length
              n_variants := n_variants
              sample_indices_to_keep := keep
              variant_indices_to_keep := variant_indices_to_keep
              next_variant_idx := 0
              bed_body := bed_bytes.drop 3 }

/-- Modelled from the spec: construction of the Packed-Matrix decoder with a
variant-keep restriction.  The `src/` version of
`PackedAncestryMapReader::open` (`src/reader/packedancestrymap.rs` lines
29-90) takes no restriction arguments, although its caller in `cli.rs` passes
them, so that part of the repository is missing from `src/`.  The in-repo
checks (header/sidecar agreement, sample count ≥ 2, variant count ≥ 1) are
embedded from the source; the missing variant-keep validation follows §4.2 of
the spec: "every requested variant-keep index < variant count (else a bounds
error naming the offending 1-based index)". -/
def packedOpen (headerN headerV : Nat) (samples variants : List String)
    (variant_indices_to_keep : Option (List Nat)) (geno_body : List Nat) :
    Except Err PackedState :=
  if samples.length ≠ headerN then
    .error (.packedAncestryMapNAgreement headerN samples.length)
  else if headerN < 2 then .error (.sampleCount headerN)
  else if variants.length ≠ headerV then
    .error (.packedAncestryMapVAgreement headerV variants.length)
  else if headerV < 1 then .error (.variantCount headerV)
  else
    match variant_indices_to_keep.bind
        (fun set => set.find? (fun idx => headerV ≤ idx)) with
    | some bad_idx => .error (.variantIndexHigh (bad_idx + 1) headerV)
    | none =>
      .ok { n_samples := headerN
            n_variants := headerV
            next_variant_idx := 0
            block_size := max 48 ((samples.length + 3) / 4)
            bytes := geno_body }

theorem parse_indices_go_zero :
    ∀ (items : List IndexItem) (acc : List Nat),
      (∃ it ∈ items, itemHasZero it = true) →
      parse_indices_go items acc = .error .variantIndexLow := by
  intro items
  induction items with
  | nil =>
    rintro acc ⟨it, hit, _⟩
    exact absurd hit (List.not_mem_nil it)
  | cons it rest ih =>
    rintro acc ⟨jt, hjt, hz⟩
    rcases List.mem_cons.mp hjt with h | h
    · subst h
      cases jt with
      | single n =>
        have hn : n = 0 := by simpa [itemHasZero] using hz
        subst hn
        rw [parse_indices_go]
        simp
      | range a b =>
        have hab : a = 0 ∨ b = 0 := by simpa [itemHasZero] using hz
        rw [parse_indices_go, if_pos hab]
    · cases it with
      | single n =>
        rw [parse_indices_go]
        by_cases hn : n = 0
        · simp [hn]
        · rw [if_neg hn]
          exact ih _ ⟨jt, h, hz⟩
      | range a b =>
        rw [parse_indices_go]
        by_cases hab : a = 0 ∨ b = 0
        · rw [if_pos hab]
        · rw [if_neg hab]
          exact ih _ ⟨jt, h, hz⟩

theorem min?_mem_nat {l : List Nat} {m : Nat} (h : l.min? = some m) :
    m ∈ l :=
  List.min?_mem (fun a b => by omega) h

theorem min?_some_of_mem_nat {l : List Nat} {x : Nat} (hx : x ∈ l) :
    ∃ m, l.min? = some m := by
  have h := List.isSome_min?_of_mem hx
  exact Option.isSome_iff_exists.mp h

/-- C5: requesting a 1-based variant index of 0 fails in `parse_indices` with
the "must be positive" error (`VariantIndexLow`), and a variant index at or
past the variant count fails at decoder construction — for the Unpacked-Text,
Transposed, PLINK and (spec-modelled) Packed-Matrix decoders alike — with the
distinguishable `VariantIndexHigh` error naming the offending index 1-based;
no construction silently clamps or drops the index. -/
theorem variant_index_bounds :
    (∀ items : List IndexItem, (∃ it ∈ items, itemHasZero it = true) →
      parse_indices items = Except.error Err.variantIndexLow) ∧
    (∀ (samples variants : List String) (geno_lines : List (List Char))
        (stk : Option (List String)) (keep : List Nat),
      2 ≤ samples.length → 1 ≤ variants.length →
      (∃ bad ∈ keep, variants.length ≤ bad) →
      ∃ b ∈ keep, variants.length ≤ b ∧
        eigenstratOpen samples variants geno_lines stk (some keep) =
          Except.error (Err.variantIndexHigh (b + 1) variants.length)) ∧
    (∀ (headerN headerV : Nat) (samples variants : List String)
        (keep : List Nat) (payload : List Nat),
      samples.length = headerN → 2 ≤ headerN →
      variants.length = headerV → 1 ≤ headerV →
      (∃ bad ∈ keep, headerV ≤ bad) →
      ∃ b ∈ keep, headerV ≤ b ∧
        transposedOpen headerN headerV samples variants (some keep) payload =
          Except.error (Err.variantIndexHigh (b + 1) headerV)) ∧
    (∀ (samples : List String) (n_variants : Nat) (bed_bytes : List Nat)
        (stk : Option (List String)) (keep : List Nat),
      bed_bytes.getD 0 0 = 108 → bed_bytes.getD 1 0 = 27 →
      bed_bytes.getD 2 0 = 1 → 2 ≤ samples.length → 1 ≤ n_variants →
      bed_bytes.length = 3 + (samples.length + 3) / 4 * n_variants →
      (∃ bad ∈ keep, n_variants ≤ bad) →
      ∃ b ∈ keep, n_variants ≤ b ∧
        plinkOpen samples n_variants bed_bytes stk (some keep) =
          Except.error (Err.variantIndexHigh (b + 1) n_variants)) ∧
    (∀ (headerN headerV : Nat) (samples variants : List String)
        (keep : List Nat) (geno_body : List Nat),
      samples.length = headerN → 2 ≤ headerN →
      variants.length = headerV → 1 ≤ headerV →
      (∃ bad ∈ keep, headerV ≤ bad) →
      ∃ b ∈ keep, headerV ≤ b ∧
        packedOpen headerN headerV samples variants (some keep) geno_body =
          Except.error (Err.variantIndexHigh (b + 1) headerV)) := by
  refine ⟨?_, ?_, ?_, ?_, ?_⟩
  · intro items h
    exact parse_indices_go_zero items [] h
  · rintro samples variants geno_lines stk keep h2 h1 ⟨bad, hbad, hge⟩
    have hfind : ∃ b,
        keep.find? (fun idx => decide (variants.length ≤ idx)) = some b :=
      Option.isSome_iff_exists.mp
        (List.find?_isSome.mpr ⟨bad, hbad, by simpa using hge⟩)
    obtain ⟨b, hb⟩ := hfind
    refine ⟨b, List.mem_of_find?_eq_some hb,
      by simpa using List.find?_some hb, ?_⟩
    unfold eigenstratOpen
    rw [if_neg (by omega), if_neg (by omega)]
    have hbind : Option.bind (some keep)
        (fun set => set.find? (fun idx => decide (variants.length ≤ idx))) =
        some b := hb
    rw [hbind]
  · rintro headerN headerV samples variants keep payload hN h2 hV h1
      ⟨bad, hbad, hge⟩
    have hbadf : bad ∈ keep.filter (fun idx => decide (headerV ≤ idx)) :=
      List.mem_filter.mpr ⟨hbad, by simpa using hge⟩
    obtain ⟨b, hb⟩ := min?_some_of_mem_nat hbadf
    have hbf := List.mem_filter.mp (min?_mem_nat hb)
    refine ⟨b, hbf.1, by simpa using hbf.2, ?_⟩
    unfold transposedOpen
    rw [if_neg (by omega), if_neg (by omega), if_neg (by omega),
      if_neg (by omega)]
    have hbind : Option.bind (some keep)
        (fun set => (set.filter (fun idx => decide (headerV ≤ idx))).min?) =
        some b := hb
    rw [hbind]
  · rintro samples n_variants bed_bytes stk keep hm0 hm1 hm2 h2 h1 hsize
      ⟨bad, hbad, hge⟩
    have hbadf : bad ∈ keep.filter (fun idx => decide (n_variants ≤ idx)) :=
      List.mem_filter.mpr ⟨hbad, by simpa using hge⟩
    obtain ⟨b, hb⟩ := min?_some_of_mem_nat hbadf
    have hbf := List.mem_filter.mp (min?_mem_nat hb)
    refine ⟨b, hbf.1, by simpa using hbf.2, ?_⟩
    unfold plinkOpen
    rw [if_neg (by omega), if_neg (not_not_intro ⟨hm0, hm1⟩),
      if_neg (not_not_intro hm2), if_neg (by omega), if_neg (by omega),
      if_neg (not_not_intro hsize)]
    have hbind : Option.bind (some keep)
        (fun set => (set.filter (fun idx => decide (n_variants ≤ idx))).min?) =
        some b := hb
    rw [hbind]
  · rintro headerN headerV samples variants keep geno_body hN h2 hV h1
      ⟨bad, hbad, hge⟩
    have hfind : ∃ b,
        keep.find? (fun idx => decide (headerV ≤ idx)) = some b :=
      Option.isSome_iff_exists.mp
        (List.find?_isSome.mpr ⟨bad, hbad, by simpa using hge⟩)
    obtain ⟨b, hb⟩ := hfind
    refine ⟨b, List.mem_of_find?_eq_some hb,
      by simpa using List.find?_some hb, ?_⟩
    unfold packedOpen
    rw [if_neg (by omega), if_neg (by omega), if_neg (by omega),
      if_neg (by omega)]
    have hbind : Option.bind (some keep)
        (fun set => set.find? (fun idx => decide (headerV ≤ idx))) =
        some b := hb
    rw [hbind]

/-- Witness for `variant_index_bounds`: index 0 in the specification, and a
keep index 5 against a single-variant file, at each construction. -/
theorem variant_index_bounds_witness :
    parse_indices [IndexItem.single 0] = Except.error Err.variantIndexLow ∧
    (∃ b ∈ [5], ([("v" : String)]).length ≤ b ∧
      eigenstratOpen ["a", "b"] ["v"] [] none (some [5]) =
        Except.error (Err.variantIndexHigh (b + 1) (["v"] : List String).length)) ∧
    (∃ b ∈ [5], 1 ≤ b ∧
      transposedOpen 2 1 ["a", "b"] ["v"] (some [5]) [] =
        Except.error (Err.variantIndexHigh (b + 1) 1)) ∧
    (∃ b ∈ [5], 1 ≤ b ∧
      plinkOpen ["a", "b"] 1 [108, 27, 1, 0] none (some [5]) =
        Except.error (Err.variantIndexHigh (b + 1) 1)) ∧
    (∃ b ∈ [5], 1 ≤ b ∧
      packedOpen 2 1 ["a", "b"] ["v"] (some [5]) [] =
        Except.error (Err.variantIndexHigh (b + 1) 1)) :=
  ⟨variant_index_bounds.1 [IndexItem.single 0]
    ⟨IndexItem.single 0, by decide, by decide⟩,
   variant_index_bounds.2.1 ["a", "b"] ["v"] [] none [5]
    (by decide) (by decide) ⟨5, by decide, by decide⟩,
   variant_index_bounds.2.2.1 2 1 ["a", "b"] ["v"] [5] []
    rfl (by decide) rfl (by decide) ⟨5, by decide, by decide⟩,
   variant_index_bounds.2.2.2.1 ["a", "b"] 1 [108, 27, 1, 0] none [5]
    (by decide) (by decide) (by decide) (by decide) (by decide) (by decide)
    ⟨5, by decide, by decide⟩,
   variant_index_bounds.2.2.2.2 2 1 ["a", "b"] ["v"] [5] []
    rfl (by decide) rfl (by decide) ⟨5, by decide, by decide⟩⟩

/-- Index lookup of `resolve_sample_pairs` (`src/cli.rs` lines 468-471): the
HashMap is filled by inserting `(sample, idx)` in file order, so with a
duplicated id the later index wins — the last matching position of the
enumerated list. -/
def lookupIdx (samples : List String) (s : String) : Option Nat :=
  ((samples.enum.filter (fun p => decide (p.2 = s))).map
    (fun p => p.1)).getLast?

/-- Set insertion of `HashSet::insert` over the model's pair list. -/
def insertPair (l : List (Nat × Nat)) (x : Nat × Nat) : List (Nat × Nat) :=
  if x ∈ l then l else l ++ [x]

/-- Loop of `resolve_sample_pairs`, `src/cli.rs` lines 473-509 (the `trim` of
the id strings is elided: ids enter pre-trimmed): equal ids in a pair are the
duplicate-sample error, an id absent from the sample list the unknown-sample
error; otherwise the index pair is ordered and inserted. -/
def resolve_sample_pairs_go (samples : List String) :
    List (String × String) → List (Nat × Nat) →
      Except Err (List (Nat × Nat))
  | [], acc => .ok acc
  | (left, right) :: rest, acc =>
    if left = right then .error (.samplePairDuplicate left)
    else
      match lookupIdx samples left with
      | none => .error (.samplePairUnknownSample left)
      | some left_idx =>
        match lookupIdx samples right with
        | none => .error (.samplePairUnknownSample right)
        | some right_idx =>
          if (if left_idx < right_idx then left_idx else right_idx) =
              (if left_idx < right_idx then right_idx else left_idx) then
            .error (.samplePairDuplicate
              (samples.getD (if left_idx < right_idx then left_idx
                else right_idx) ""))
          else
            resolve_sample_pairs_go samples rest
              (insertPair acc
                (if left_idx < right_idx then left_idx else right_idx,
                 if left_idx < right_idx then right_idx else left_idx))

/-- Function `resolve_sample_pairs`, `src/cli.rs` lines 464-515: an empty
resolved set is the `SamplePairsEmpty` error. -/
def resolve_sample_pairs (samples : List String)
    (pairs : List (String × String)) : Except Err (List (Nat × Nat)) :=
  match resolve_sample_pairs_go samples pairs [] with
  | .error e => .error e
  | .ok to_keep =>
    if to_keep.isEmpty then .error .samplePairsEmpty
    else .ok to_keep

/-- Element increment `covered[idx] += 1` of `count_covered_snps`
(`src/cli.rs` line 578).  The Rust indexing panics out of bounds; the
model's `List.set` is a no-op there, which the verified uses never reach
(genotype length equals the sample count). -/
def listIncr (l : List Nat) (i : Nat) : List Nat :=
  l.set i (l.getD i 0 + 1)

/-- Inner loop of `count_covered_snps`, `src/cli.rs` lines 576-580: walk one
site's genotypes with their index, incrementing the per-sample count at every
non-missing call. -/
def coverSiteGo : List Allele → Nat → List Nat → List Nat
  | [], _, cov => cov
  | a :: rest, idx, cov =>
    coverSiteGo rest (idx + 1)
      (if a ≠ Allele.Missing then listIncr cov idx else cov)

/-- Function `count_covered_snps`, `src/cli.rs` lines 571-583, over an
error-free stream of sites. -/
def count_covered_snps (n_samples : Nat) (sites : List Site) : List Nat :=
  sites.foldl (fun cov s => coverSiteGo s.genotypes 0 cov)
    (List.replicate n_samples 0)

/-- Allowed-sample set of `build_pair_indices_to_count`, `src/cli.rs`
lines 526-540: the indices whose covered-site count strictly exceeds the
threshold (the filter-enumerate-collect in the `apply_threshold` arm; the
other arm's empty set is never read, since every use is guarded by
`apply_threshold`). -/
def allowedSamples (covered_snps : List Nat) (min_covered_snps : Nat) :
    List Nat :=
  (covered_snps.enum.filter (fun p => decide (min_covered_snps < p.2))).map
    (fun p => p.1)

/-- Function `build_pair_indices_to_count`, `src/cli.rs` lines 519-569: with
a positive threshold, explicit pairs are resolved then retained only when
both members are allowed; with no explicit pairs the mask is omitted when the
threshold is off or every sample is allowed, and is otherwise all unordered
pairs of allowed samples. -/
def build_pair_indices_to_count (samples : List String)
    (sample_pairs : Option (List (String × String)))
    (covered_snps : List Nat) (min_covered_snps : Nat) :
    Except Err (Option (List (Nat × Nat))) :=
  match sample_pairs with
  | some pairs =>
    match resolve_sample_pairs samples pairs with
    | .error e => .error e
    | .ok resolved =>
      if 0 < min_covered_snps then
        .ok (some (resolved.filter (fun p =>
          decide (p.1 ∈ allowedSamples covered_snps min_covered_snps) &&
          decide (p.2 ∈ allowedSamples covered_snps min_covered_snps))))
      else .ok (some resolved)
  | none =>
    if ¬ 0 < min_covered_snps then .ok none
    else if (allowedSamples covered_snps min_covered_snps).length =
        samples.length then .ok none
    else .ok (some (pairsOf (allowedSamples covered_snps min_covered_snps)))

theorem allowedSamples_mem (cov : List Nat) (m x : Nat) :
    x ∈ allowedSamples cov m ↔ x < cov.length ∧ m < cov.getD x 0 := by
  unfold allowedSamples
  rw [List.mem_map]
  constructor
  · rintro ⟨p, hp, hpx⟩
    obtain ⟨hmem, hpred⟩ := List.mem_filter.mp hp
    have hget := List.mem_enum_iff_getElem?.mp hmem
    obtain ⟨hlt, hv⟩ := List.getElem?_eq_some.mp hget
    subst hpx
    refine ⟨hlt, ?_⟩
    rw [List.getD_eq_getElem cov 0 hlt, hv]
    simpa using hpred
  · rintro ⟨hlt, hm⟩
    refine ⟨(x, cov[x]), ?_, rfl⟩
    rw [List.mem_filter]
    refine ⟨List.mem_enum_iff_getElem?.mpr (List.getElem?_eq_getElem hlt), ?_⟩
    rw [← List.getD_eq_getElem cov 0 hlt]
    simpa using hm

theorem pairsOf_mem_sub {α : Type} :
    ∀ (l : List α) (x y : α), (x, y) ∈ pairsOf l → x ∈ l ∧ y ∈ l := by
  intro l
  induction l with
  | nil =>
    intro x y h
    simp [pairsOf] at h
  | cons p rest ih =>
    intro x y h
    rw [show pairsOf (p :: rest) =
      (rest.map (fun q => (p, q))) ++ pairsOf rest from rfl] at h
    rcases List.mem_append.mp h with h | h
    · obtain ⟨q, hq, hpq⟩ := List.mem_map.mp h
      have hx : p = x := congrArg Prod.fst hpq
      have hy : q = y := congrArg Prod.snd hpq
      subst hx
      subst hy
      exact ⟨by simp, by simp [hq]⟩
    · have := ih x y h
      exact ⟨by simp [this.1], by simp [this.2]⟩

theorem listIncr_length (l : List Nat) (i : Nat) :
    (listIncr l i).length = l.length := by
  unfold listIncr
  exact List.length_set l i _

theorem listIncr_getD (l : List Nat) (i t : Nat) :
    (listIncr l i).getD t 0 =
      if t = i ∧ i < l.length then l.getD t 0 + 1 else l.getD t 0 := by
  unfold listIncr
  by_cases ht : t = i
  · subst ht
    by_cases hi : t < l.length
    · rw [if_pos ⟨rfl, hi⟩, List.getD_eq_getElem?_getD,
        List.getElem?_set_self', List.getD_eq_getElem?_getD,
        List.getElem?_eq_getElem hi]
      simp
    · rw [if_neg (by omega), List.getD_eq_getElem?_getD,
        List.getD_eq_getElem?_getD,
        List.getElem?_eq_none (by omega : l.length ≤ t),
        List.getElem?_eq_none (by simp [List.length_set]; omega)]
  · rw [if_neg (fun hc => ht hc.1), List.getD_eq_getElem?_getD,
      List.getD_eq_getElem?_getD, List.getElem?_set_ne (by omega)]
    rw [List.getD_eq_getElem?_getD]

theorem coverSiteGo_length :
    ∀ (g : List Allele) (idx : Nat) (cov : List Nat),
      (coverSiteGo g idx cov).length = cov.length := by
  intro g
  induction g with
  | nil =>
    intro idx cov
    rfl
  | cons a rest ih =>
    intro idx cov
    rw [coverSiteGo, ih]
    by_cases ha : a ≠ Allele.Missing
    · rw [if_pos ha, listIncr_length]
    · rw [if_neg ha]

theorem coverSiteGo_getD :
    ∀ (g : List Allele) (idx : Nat) (cov : List Nat) (t : Nat),
      (coverSiteGo g idx cov).getD t 0 =
        cov.getD t 0 +
          (if idx ≤ t ∧ t - idx < g.length ∧ t < cov.length ∧
              g.getD (t - idx) Allele.Missing ≠ Allele.Missing then 1
           else 0) := by
  intro g
  induction g with
  | nil =>
    intro idx cov t
    rw [coverSiteGo, if_neg]
    · omega
    · rintro ⟨_, h2, _⟩
      simp at h2
  | cons a rest ih =>
    intro idx cov t
    rw [coverSiteGo, ih]
    by_cases hta : t = idx
    · subst hta
      have hrest : ¬ (t + 1 ≤ t ∧ t - (t + 1) < rest.length ∧
          t < (if a ≠ Allele.Missing then listIncr cov t else cov).length ∧
          rest.getD (t - (t + 1)) Allele.Missing ≠ Allele.Missing) := by
        rintro ⟨h1, _⟩
        omega
      rw [if_neg hrest]
      by_cases ha : a ≠ Allele.Missing
      · rw [if_pos ha, listIncr_getD]
        by_cases hlen2 : t < cov.length
        · rw [if_pos ⟨rfl, hlen2⟩, if_pos]
          refine ⟨Nat.le_refl t, by simp, hlen2, ?_⟩
          simpa [Nat.sub_self] using ha
        · rw [if_neg (by omega), if_neg (by omega)]
      · rw [if_neg ha, if_neg]
        rintro ⟨_, _, _, hne⟩
        rw [Nat.sub_self] at hne
        simp at hne
        exact hne (by simpa using ha)
    · have hcov' : (if a ≠ Allele.Missing then listIncr cov idx else cov).getD
          t 0 = cov.getD t 0 := by
        by_cases ha : a ≠ Allele.Missing
        · rw [if_pos ha, listIncr_getD, if_neg]
          rintro ⟨h1, _⟩
          exact hta h1
        · rw [if_neg ha]
      have hlen' : (if a ≠ Allele.Missing then listIncr cov idx
          else cov).length = cov.length := by
        by_cases ha : a ≠ Allele.Missing
        · rw [if_pos ha, listIncr_length]
        · rw [if_neg ha]
      rw [hcov', hlen']
      congr 1
      by_cases hc : idx + 1 ≤ t ∧ t - (idx + 1) < rest.length ∧
          t < cov.length ∧
          rest.getD (t - (idx + 1)) Allele.Missing ≠ Allele.Missing
      · rw [if_pos hc, if_pos]
        obtain ⟨h1, h2, h3, h4⟩ := hc
        refine ⟨by omega, by simp; omega, h3, ?_⟩
        have : t - idx = (t - (idx + 1)) + 1 := by omega
        rw [this, List.getD_cons_succ]
        exact h4
      · rw [if_neg hc, if_neg]
        rintro ⟨h1, h2, h3, h4⟩
        apply hc
        have hle : idx + 1 ≤ t := by omega
        have heq : t - idx = (t - (idx + 1)) + 1 := by omega
        rw [heq, List.getD_cons_succ] at h4
        refine ⟨hle, ?_, h3, h4⟩
        simp at h2
        omega

theorem count_covered_aux (n i : Nat) (hi : i < n) :
    ∀ (sites : List Site) (cov : List Nat), cov.length = n →
      (∀ s ∈ sites, s.genotypes.length = n) →
      (sites.foldl (fun cov s => coverSiteGo s.genotypes 0 cov) cov).getD i 0 =
        cov.getD i 0 + sites.countP (fun s =>
          decide (s.genotypes.getD i Allele.Missing ≠ Allele.Missing)) := by
  intro sites
  induction sites with
  | nil =>
    intro cov _ _
    simp
  | cons s rest ih =>
    intro cov hcov hlen
    rw [List.foldl_cons,
      ih (coverSiteGo s.genotypes 0 cov)
        (by rw [coverSiteGo_length, hcov])
        (fun t ht => hlen t (by simp [ht])),
      coverSiteGo_getD, List.countP_cons]
    have hslen := hlen s (by simp)
    by_cases hc : s.genotypes.getD i Allele.Missing ≠ Allele.Missing
    · rw [if_pos ⟨Nat.zero_le i, by omega, by omega, by simpa using hc⟩,
        if_pos (by simpa using hc)]
      omega
    · rw [if_neg (by
        rintro ⟨_, _, _, h4⟩
        exact hc (by simpa using h4)),
        if_neg (by simpa using hc)]
      omega

/-- C6: with a positive minimum-covered-sites threshold, the pre-pass
`count_covered_snps` counts per sample the sites with a non-missing call;
every pair the built mask admits has both members strictly above the
threshold (samples at or below it are excluded from automatic all-pairs
computation, and an explicitly listed pair is dropped when either member
fails); and in the automatic case the mask is only omitted when every sample
passes. -/
theorem coverage_threshold_filtering (samples : List String)
    (sites : List Site) (sample_pairs : Option (List (String × String)))
    (cov : List Nat) (minc : Nat) (hmin : 0 < minc) :
    (∀ i < samples.length,
      (∀ s ∈ sites, s.genotypes.length = samples.length) →
      (count_covered_snps samples.length sites).getD i 0 =
        sites.countP (fun s =>
          decide (s.genotypes.getD i Allele.Missing ≠ Allele.Missing))) ∧
    (∀ mask,
      build_pair_indices_to_count samples sample_pairs cov minc =
        Except.ok (some mask) →
      ∀ p ∈ mask, minc < cov.getD p.1 0 ∧ minc < cov.getD p.2 0) ∧
    (cov.length = samples.length →
      build_pair_indices_to_count samples none cov minc = Except.ok none →
      ∀ i < samples.length, minc < cov.getD i 0) ∧
    (∀ pairs resolved p mask,
      resolve_sample_pairs samples pairs = Except.ok resolved →
      p ∈ resolved →
      ¬ (minc < cov.getD p.1 0 ∧ minc < cov.getD p.2 0) →
      build_pair_indices_to_count samples (some pairs) cov minc =
        Except.ok (some mask) →
      p ∉ mask) := by
  refine ⟨?_, ?_, ?_, ?_⟩
  · intro i hi hlen
    unfold count_covered_snps
    rw [count_covered_aux samples.length i hi sites
      (List.replicate samples.length 0) (by simp) hlen]
    simp
  · intro mask hmask p hp
    unfold build_pair_indices_to_count at hmask
    split at hmask
    · split at hmask
      · simp at hmask
      · rw [if_pos hmin] at hmask
        simp only [Except.ok.injEq, Option.some.injEq] at hmask
        subst hmask
        obtain ⟨_, hpred⟩ := List.mem_filter.mp hp
        simp only [Bool.and_eq_true, decide_eq_true_eq] at hpred
        exact ⟨((allowedSamples_mem cov minc p.1).mp hpred.1).2,
               ((allowedSamples_mem cov minc p.2).mp hpred.2).2⟩
    · rw [if_neg (not_not_intro hmin)] at hmask
      split at hmask
      · simp at hmask
      · simp only [Except.ok.injEq, Option.some.injEq] at hmask
        subst hmask
        obtain ⟨hx, hy⟩ :=
          pairsOf_mem_sub (allowedSamples cov minc) p.1 p.2 (by simpa using hp)
        exact ⟨((allowedSamples_mem cov minc p.1).mp hx).2,
               ((allowedSamples_mem cov minc p.2).mp hy).2⟩
  · intro hcovlen hnone i hilt
    unfold build_pair_indices_to_count at hnone
    rw [if_neg (not_not_intro hmin)] at hnone
    by_cases hall : (allowedSamples cov minc).length = samples.length
    · have hsub : (allowedSamples cov minc).Sublist (List.range cov.length) := by
        unfold allowedSamples
        have h1 : ((cov.enum.filter (fun p => decide (minc < p.2))).map
            (fun p => p.1)).Sublist (cov.enum.map (fun p => p.1)) :=
          (List.filter_sublist cov.enum).map (fun p => p.1)
        have h2 : cov.enum.map (fun p => p.1) = List.range cov.length := by
          simpa using List.enum_map_fst cov
        rwa [h2] at h1
      have hlen2 : (allowedSamples cov minc).length =
          (List.range cov.length).length := by
        rw [hall, List.length_range, hcovlen]
      have heq : allowedSamples cov minc = List.range cov.length :=
        hsub.eq_of_length hlen2
      have himem : i ∈ allowedSamples cov minc := by
        rw [heq]
        exact List.mem_range.mpr (by omega)
      exact ((allowedSamples_mem cov minc i).mp himem).2
    · rw [if_neg hall] at hnone
      simp at hnone
  · intro pairs resolved p mask hres hp hfail hmask
    unfold build_pair_indices_to_count at hmask
    split at hmask
    · next e heq =>
      have he : e = pairs := by
        injection heq with h
        exact h.symm
      subst he
      split at hmask
      · next err heq2 =>
        rw [hres] at heq2
        simp at heq2
      · next resolved' heq2 =>
        rw [hres] at heq2
        have hr : resolved = resolved' := by
          injection heq2
        subst hr
        rw [if_pos hmin] at hmask
        simp only [Except.ok.injEq, Option.some.injEq] at hmask
        subst hmask
        intro hmem
        obtain ⟨_, hpred⟩ := List.mem_filter.mp hmem
        simp only [Bool.and_eq_true, decide_eq_true_eq] at hpred
        exact hfail ⟨((allowedSamples_mem cov minc p.1).mp hpred.1).2,
                     ((allowedSamples_mem cov minc p.2).mp hpred.2).2⟩
    · next heq =>
      simp at heq

/-- Witness for `coverage_threshold_filtering`: threshold 1, samples a and b
covered twice, c never: the explicit pair (a, b) survives the filter, and
both of its members exceed the threshold. -/
theorem coverage_threshold_filtering_witness :
    build_pair_indices_to_count ["a", "b", "c"] (some [("a", "b")]) [2, 2, 0]
      1 = Except.ok (some [(0, 1)]) ∧
    (1 < ([2, 2, 0] : List Nat).getD 0 0 ∧
      1 < ([2, 2, 0] : List Nat).getD 1 0) :=
  ⟨rfl,
   (coverage_threshold_filtering ["a", "b", "c"] [] (some [("a", "b")])
      [2, 2, 0] 1 (by decide)).2.1 [(0, 1)] rfl (0, 1) (by decide)⟩

/-- Counterexample to C7 as stated: with samples A and B, the explicit pair
(A, B), zero coverage everywhere and threshold 1, coverage filtering empties
the resolved pair set, yet the run does not abort — the builder returns an
empty mask, and the computation would proceed to an all-zero result. -/
theorem empty_filtered_pair_set_no_error :
    build_pair_indices_to_count ["A", "B"] (some [("A", "B")]) [0, 0] 1 =
      Except.ok (some []) := rfl

/-- C7 (amended): an empty resolved pair set at resolution time is fatal —
`resolve_sample_pairs` never returns an empty set, and rejects an empty
explicit list with `SamplePairsEmpty` — but when coverage-threshold filtering
removes every resolved pair, the run does not abort: the builder returns an
empty pair mask (so every cell stays at zero overlap) rather than an
error. -/
theorem empty_pair_set_handling :
    (∀ (samples : List String) (pairs : List (String × String))
        (r : List (Nat × Nat)),
      resolve_sample_pairs samples pairs = Except.ok r → r ≠ []) ∧
    (∀ samples : List String,
      resolve_sample_pairs samples [] = Except.error Err.samplePairsEmpty) ∧
    (∀ (samples : List String) (pairs : List (String × String))
        (cov : List Nat) (minc : Nat) (resolved : List (Nat × Nat)),
      0 < minc →
      resolve_sample_pairs samples pairs = Except.ok resolved →
      (∀ p ∈ resolved, ¬ (p.1 ∈ allowedSamples cov minc ∧
        p.2 ∈ allowedSamples cov minc)) →
      build_pair_indices_to_count samples (some pairs) cov minc =
        Except.ok (some [])) := by
  refine ⟨?_, ?_, ?_⟩
  · intro samples pairs r h
    unfold resolve_sample_pairs at h
    split at h
    · simp at h
    · next to_keep heq =>
      by_cases he : to_keep.isEmpty
      · rw [if_pos he] at h
        simp at h
      · rw [if_neg he] at h
        simp only [Except.ok.injEq] at h
        subst h
        simpa [List.isEmpty_iff] using he
  · intro samples
    rfl
  · intro samples pairs cov minc resolved hm hres hfail
    unfold build_pair_indices_to_count
    split
    · next e heq =>
      have he : e = pairs := by
        injection heq with h
        exact h.symm
      subst he
      split
      · next err heq2 =>
        rw [hres] at heq2
        simp at heq2
      · next resolved' heq2 =>
        rw [hres] at heq2
        have hr : resolved = resolved' := by
          injection heq2
        subst hr
        rw [if_pos hm]
        congr 1
        congr 1
        rw [List.filter_eq_nil_iff]
        intro p hp
        have := hfail p hp
        simp only [Bool.and_eq_true, decide_eq_true_eq]
        rintro ⟨h1, h2⟩
        exact this ⟨h1, h2⟩
    · next heq =>
      simp at heq

/-- Witness for `empty_pair_set_handling`: the empty CSV case errors, and the
coverage-emptied explicit pair proceeds with an empty mask. -/
theorem empty_pair_set_handling_witness :
    resolve_sample_pairs ["A"] [] = Except.error Err.samplePairsEmpty ∧
    build_pair_indices_to_count ["A", "B"] (some [("A", "B")]) [0, 0] 1 =
      Except.ok (some []) :=
  ⟨empty_pair_set_handling.2.1 ["A"],
   empty_pair_set_handling.2.2 ["A", "B"] [("A", "B")] [0, 0] 1 [(0, 1)]
    (by decide) rfl (by decide)⟩
